import Mathlib

/-!
Verification of the fetchy Request Execution Engine and Collection Runner.

This file gives a shallow embedding of the core of the repository:
the variable resolver (`replaceVariables`, `resolveRequestVariables` from
`src/utils/jwt.ts`), the request execution engine (`executeRequest`,
`runPreScript`, `runScript` from the http client module), and the
collection runner (`flattenRequests`, `getInheritedAuth` and the
sequential run loop of `RunCollectionModal`), and proves or refutes the
frozen specification claims about them.

Modelling conventions:
* JavaScript strings are Lean `String`s; where character-level reasoning is
  needed we work on `String.data : List Char`.
* A JS `Map` and a JS plain object used as a string-keyed dictionary are
  both modelled as association lists in insertion order, where setting an
  existing key updates the entry in place (JS iteration-order semantics).
* The regular expression `new RegExp('<<' + key + '>>', 'g')` built by
  `replaceVariables` is modelled for the fragment in which every key
  character is either a regex-neutral literal or the metacharacter `.`
  (which matches any single character).  All patterns in this fragment are
  fixed-length, so global replacement is a left-to-right scan replacing
  non-overlapping matches, exactly as JS `String.replace` with the `g`
  flag behaves on such patterns.  Keys using other metacharacters are
  outside the modelled fragment.
* User scripts are embedded by their observable semantics: a pre-script is
  a function from the environment variable list to the `{error?, output?}`
  record that `runPreScript` produces (its internal try/catch included),
  and a post-script is a function from the transport response and the
  environment to either a captured console output or a thrown message.
  The write-through of `environment.set` to the live store is outside the
  claims and not modelled.
* The HTTP transport (Electron `httpRequest` / the proxy fetch) is an
  explicit collaborator parameter returning either a response or a thrown
  error message; `executeRequest` records whether it was invoked.
* Wall-clock durations are modelled as 0; no claim depends on timing.
-/

namespace Fetchy

/-! ## Data model (src/types): key/value entries, auth, requests -/

/-- A `KeyValue` entry as used for variables, headers, params and body
fields: `{id, key, value, enabled, currentValue?, initialValue?, isSecret?}`. -/
structure KeyValue where
  id : String
  key : String
  value : String
  enabled : Bool
  currentValue : Option String := none
  initialValue : Option String := none
  isSecret : Bool := false
  deriving Repr, DecidableEq

/-! ## Variable resolver (src/utils/jwt.ts) -/

/-- `getEffectiveValue` from `replaceVariables`: prefer `currentValue` if
set and non-empty, otherwise `value` if non-empty, otherwise
`initialValue || ''`. -/
def getEffectiveValue (v : KeyValue) : String :=
  match v.currentValue with
  | some c => if c ≠ "" then c else if v.value ≠ "" then v.value else v.initialValue.getD ""
  | none => if v.value ≠ "" then v.value else v.initialValue.getD ""

/-- JS `Map.set` on an association list: update in place if the key is
present (keeping its original position), otherwise append. -/
def mapSet (m : List (String × String)) (k v : String) : List (String × String) :=
  if m.any (fun p => p.1 = k) then
    m.map (fun p => if p.1 = k then (k, v) else p)
  else
    m ++ [(k, v)]

/-- JS object / `Map` lookup by key. -/
def mapGet (m : List (String × String)) (k : String) : Option String :=
  (m.find? (fun p => p.1 = k)).map (fun p => p.2)

/-- The `variableMap` of `replaceVariables`: enabled collection variables
inserted first, then enabled environment variables (overriding duplicate
keys). -/
def buildVariableMap (colVars envVars : List KeyValue) : List (String × String) :=
  let m := colVars.foldl
    (fun m v => if v.enabled then mapSet m v.key (getEffectiveValue v) else m) []
  envVars.foldl
    (fun m v => if v.enabled then mapSet m v.key (getEffectiveValue v) else m) m

/-- One atom of the modelled regex fragment: a literal character or the
`.` wildcard. -/
inductive PChar where
  | lit (c : Char)
  | any
  deriving Repr, DecidableEq

/-- Whether one pattern atom matches one character. -/
def pcharMatches : PChar → Char → Bool
  | .lit c, d => c = d
  | .any, _ => true

/-- Try to match a fixed-length pattern against the front of the text,
returning the unconsumed remainder on success. -/
def consumePat : List PChar → List Char → Option (List Char)
  | [], rest => some rest
  | _ :: _, [] => none
  | p :: ps, c :: cs => if pcharMatches p c then consumePat ps cs else none

/-- The backquote character, `$` followed by which selects the prefix of
the match in a JS replacement string. -/
def backquoteChar : Char := Char.ofNat 96

/-- The apostrophe character, `$` followed by which selects the suffix of
the match in a JS replacement string. -/
def quoteChar : Char := Char.ofNat 39

/-- ECMAScript `GetSubstitution` for a regex without capture groups,
applied to the replacement string at one match: `$$` is a literal `$`,
`$&` the matched text, a backquote after `$` the part of the original
string before the match, an apostrophe after `$` the part after the
match; any other `$`-sequence (including `$1` with no groups) stays as
written. -/
def expandRepl (matched before after : List Char) : List Char → List Char
  | [] => []
  | c :: rest =>
    if c = '$' then
      match rest with
      | [] => ['$']
      | d :: rest2 =>
        if d = '$' then '$' :: expandRepl matched before after rest2
        else if d = '&' then matched ++ expandRepl matched before after rest2
        else if d = backquoteChar then before ++ expandRepl matched before after rest2
        else if d = quoteChar then after ++ expandRepl matched before after rest2
        else '$' :: d :: expandRepl matched before after rest2
    else c :: expandRepl matched before after rest

/-- Global replacement of a fixed-length pattern over the suffix of the
original string starting at position `pos`, scanning left to right and
replacing non-overlapping matches, each replacement expanded with
`GetSubstitution`: the semantics of JS
`String.replace(new RegExp(pat, 'g'), repl)` for fixed-length patterns. -/
def replaceAllFrom (pat : List PChar) (repl : List Char) (orig : List Char) :
    Nat → List Char → List Char
  | _, [] => []
  | pos, c :: cs =>
    match h : consumePat pat (c :: cs) with
    | some rest =>
      if hp : pat = [] then c :: replaceAllFrom pat repl orig (pos + 1) cs
      else
        expandRepl ((c :: cs).take pat.length) (orig.take pos) rest repl
          ++ replaceAllFrom pat repl orig (pos + pat.length) rest
    | none => c :: replaceAllFrom pat repl orig (pos + 1) cs
termination_by _ t => t.length
decreasing_by
  all_goals simp_wf
  all_goals try omega
  have key : ∀ (ps : List PChar) (xs rs : List Char),
      consumePat ps xs = some rs → rs.length + ps.length = xs.length := by
    intro ps
    induction ps with
    | nil =>
      intro xs rs hx
      simp only [consumePat, Option.some.injEq] at hx
      subst hx
      simp
    | cons p ps ih =>
      intro xs rs hx
      cases xs with
      | nil => simp [consumePat] at hx
      | cons c cs =>
        simp only [consumePat] at hx
        split at hx
        · have := ih _ _ hx
          simp only [List.length_cons]
          omega
        · exact absurd hx (by simp)
  have hlen := key _ _ _ h
  have hl : 1 ≤ pat.length := by
    cases pat with
    | nil => exact absurd rfl hp
    | cons a as => simp
  simp only [List.length_cons] at hlen
  omega

/-- JS `text.replace(new RegExp(pat, 'g'), repl)`: the scan starts at
position 0 of the text, and `GetSubstitution` sees the whole text as the
original string. -/
def replaceAll (pat : List PChar) (repl : List Char) (t : List Char) : List Char :=
  replaceAllFrom pat repl t 0 t

/-- The characters of the token `<<key>>`. -/
def tokChars (k : List Char) : List Char :=
  '<' :: '<' :: (k ++ ['>', '>'])

/-- Compile the key of `new RegExp('<<' + key + '>>')` into the modelled
fragment: `.` becomes the wildcard, every other character a literal. -/
def toPChar (c : Char) : PChar :=
  if c = '.' then .any else .lit c

/-- The pattern `<<key>>` as compiled by `replaceVariables`. -/
def keyPattern (k : String) : List PChar :=
  (tokChars k.data).map toPChar

/-- `replaceVariables(text, variables, envVariables)` from
`src/utils/jwt.ts`: build the variable map (collection first, environment
second), then for each entry replace `new RegExp('<<' + key + '>>', 'g')`
by the effective value. -/
def replaceVariables (text : String) (colVars envVars : List KeyValue) : String :=
  let m := buildVariableMap colVars envVars
  ⟨m.foldl (fun acc e => replaceAll (keyPattern e.1) e.2.data acc) text.data⟩

/-- Literal (regex-free) global replacement of a token, used to state what
the spec's words "substitutes each occurrence of `<<key>>`" mean. -/
def litReplaceAll (tok repl : List Char) (t : List Char) : List Char :=
  match t with
  | [] => []
  | c :: cs =>
    if h : tok ≠ [] ∧ tok.isPrefixOf (c :: cs) then
      repl ++ litReplaceAll tok repl ((c :: cs).drop tok.length)
    else
      c :: litReplaceAll tok repl cs
termination_by t.length
decreasing_by
  all_goals simp_wf
  all_goals try omega
  have hl : 1 ≤ tok.length := by
    cases tok with
    | nil => exact absurd rfl h.1
    | cons a as => simp
  omega

/-- Modelled from the spec: `resolve(text, collectionVars, envVars)` with
"every occurrence of `<<key>>` replaced" literally by the effective value,
the mapping built collection-first then environment (environment wins). -/
def replaceVariablesSpec (text : String) (colVars envVars : List KeyValue) : String :=
  let m := buildVariableMap colVars envVars
  ⟨m.foldl (fun acc e => litReplaceAll (tokChars e.1.data) e.2.data acc) text.data⟩

/-- Modelled from the spec: "Effective value = `currentValue` if
non-empty, else `value` if non-empty, else `initialValue`, else empty
string." -/
def effectiveValueSpec (v : KeyValue) : String :=
  if v.currentValue.getD "" ≠ "" then v.currentValue.getD ""
  else if v.value ≠ "" then v.value
  else if v.initialValue.getD "" ≠ "" then v.initialValue.getD ""
  else ""

/-- The JS regex metacharacters; a key is regex-neutral when it uses none
of them, in which case `new RegExp('<<' + key + '>>')` denotes the literal
token. -/
def regexMetaChars : List Char :=
  ['\\', '^', '$', '.', '*', '+', '?', '(', ')', '[', ']', '\x7b', '\x7d', '|']

/-- A string with no regex metacharacter. -/
def regexNeutral (s : String) : Prop :=
  ∀ c ∈ s.data, c ∉ regexMetaChars

instance (s : String) : Decidable (regexNeutral s) := by
  unfold regexNeutral; infer_instance

/-- The number of (possibly overlapping) occurrences of a token in a
text; used to state that substitution never destroys an occurrence of a
secret variable's `<<key>>` token. -/
def countOcc (tok : List Char) : List Char → Nat
  | [] => 0
  | c :: cs => (if tok.isPrefixOf (c :: cs) then 1 else 0) + countOcc tok cs

/-- A string without angle brackets, as variable keys are in practice;
under this condition distinct `<<key>>` tokens cannot overlap. -/
def angleFreeS (s : String) : Prop :=
  ∀ c ∈ s.data, c ≠ '<' ∧ c ≠ '>'

instance (s : String) : Decidable (angleFreeS s) := by
  unfold angleFreeS; infer_instance

/-! ## Auth and request data model -/

/-- The `type` discriminant of a `RequestAuth`. -/
inductive AuthType where
  | none | bearer | basic | apiKey | inherit
  deriving Repr, DecidableEq

/-- `auth.bearer`. -/
structure BearerAuth where
  token : String
  deriving Repr, DecidableEq

/-- `auth.basic`. -/
structure BasicAuth where
  username : String
  password : String
  deriving Repr, DecidableEq

/-- `auth.apiKey.addTo`. -/
inductive AddTo where
  | header | query
  deriving Repr, DecidableEq

/-- `auth.apiKey`. -/
structure ApiKeyAuth where
  key : String
  value : String
  addTo : AddTo
  deriving Repr, DecidableEq

/-- A request/folder/collection auth value: the discriminant plus the
optional per-scheme payloads, as in the TS record. -/
structure RequestAuth where
  type : AuthType
  bearer : Option BearerAuth := Option.none
  basic : Option BasicAuth := Option.none
  apiKey : Option ApiKeyAuth := Option.none
  deriving Repr, DecidableEq

/-- HTTP methods used by the engine. -/
inductive HttpMethod where
  | GET | HEAD | POST | PUT | DELETE | PATCH | OPTIONS
  deriving Repr, DecidableEq

/-- `body.type` of a request: `none`, `json`, `raw`,
`x-www-form-urlencoded` or `form-data`. -/
inductive BodyType where
  | none | json | raw | urlencoded | formData
  deriving Repr, DecidableEq

/-- A request body record. -/
structure RequestBody where
  type : BodyType
  raw : Option String := Option.none
  formData : Option (List KeyValue) := Option.none
  urlencoded : Option (List KeyValue) := Option.none
  deriving Repr, DecidableEq

/-- The `{error?, output?}` record produced by `runPreScript` (its
internal try/catch included). -/
structure PreScriptResult where
  error : Option String := Option.none
  output : Option String := Option.none
  deriving Repr, DecidableEq

/-- An `ApiResponse` as returned by the transport and the engine. -/
structure ApiResponse where
  status : Nat
  statusText : String
  headers : List (String × String)
  body : String
  time : Nat
  size : Nat
  scriptError : Option String := Option.none
  scriptOutput : Option String := Option.none
  preScriptError : Option String := Option.none
  preScriptOutput : Option String := Option.none
  deriving Repr, DecidableEq

/-- The observable behaviour of a post-response script run by `runScript`
against a response: either it returns with the captured console output
(`none` when nothing was logged), or it throws a message.  A response body
that is not valid JSON is one instance of the `threw` case, since
`runScript` begins with `JSON.parse(response.body)`. -/
inductive PostOutcome where
  | ok (output : Option String)
  | threw (msg : String)

/-- An `ApiRequest`.  The stored script sources are embedded by their
observable semantics (see the header comment); `preScript = none` models
the falsy empty source, for which the engine skips the script phase. -/
structure ApiRequest where
  id : String
  name : String
  method : HttpMethod
  url : String
  headers : List KeyValue
  params : List KeyValue
  body : RequestBody
  auth : RequestAuth
  preScript : Option (List KeyValue → PreScriptResult) := Option.none
  script : Option (ApiResponse → List KeyValue → PostOutcome) := Option.none

/-! ## History resolution (`resolveRequestVariables`, src/utils/jwt.ts) -/

/-- `resolveRequestVariables(request, collectionVariables,
environmentVariables)`: filter out secret variables, then substitute with
`replaceVariables` (combined list passed in collection position) in the
URL, header values, param values, raw body, form-data / url-encoded
entries and the auth fields. -/
def resolveRequestVariables (request : ApiRequest)
    (collectionVariables environmentVariables : List KeyValue) : ApiRequest :=
  let nonSecretVariables := (collectionVariables ++ environmentVariables).filter (fun v => !v.isSecret)
  let resolve := fun (text : String) => replaceVariables text nonSecretVariables []
  { request with
    url := resolve request.url
    headers := request.headers.map (fun h => { h with value := resolve h.value })
    params := request.params.map (fun p => { p with value := resolve p.value })
    body := { request.body with
      raw := match request.body.raw with
        | some r => if r ≠ "" then some (resolve r) else some r
        | Option.none => Option.none
      formData := request.body.formData.map (fun l => l.map (fun f => { f with value := resolve f.value }))
      urlencoded := request.body.urlencoded.map (fun l => l.map (fun u => { u with value := resolve u.value })) }
    auth := { request.auth with
      bearer := request.auth.bearer.map (fun b => { token := resolve b.token })
      basic := request.auth.basic.map (fun b =>
        { username := resolve b.username, password := resolve b.password })
      apiKey := request.auth.apiKey.map (fun a =>
        { a with key := resolve a.key, value := resolve a.value }) } }

/-! ## URL model and base64 -/

/-- A parsed URL, as much of the WHATWG `URL` object as the engine
observes: the scheme, the opaque host-plus-path text, and the search
params as an ordered pair list (`searchParams.append` appends). -/
structure URLModel where
  scheme : String
  hostPath : String
  query : List (String × String)
  deriving Repr, DecidableEq

/-- Split a character list at every occurrence of a separator. -/
def splitOnChar (c : Char) : List Char → List (List Char)
  | [] => [[]]
  | x :: xs =>
    let r := splitOnChar c xs
    if x = c then [] :: r
    else
      match r with
      | [] => [[x]]
      | y :: ys => (x :: y) :: ys

/-- JS `s.startsWith(pre)`. -/
def jsStartsWith (s pre : String) : Bool :=
  pre.data.isPrefixOf s.data

/-- Parse a `key=value&...` query string into ordered pairs. -/
def parseQuery (qs : String) : List (String × String) :=
  if qs = "" then []
  else (splitOnChar '&' qs.data).map (fun part =>
    match splitOnChar '=' part with
    | [] => (String.mk part, "")
    | k :: rest => (String.mk k, String.mk (List.intercalate ['='] rest)))

/-- A conservative host grammar: a non-empty name of ASCII letters,
digits, dots and hyphens, optionally followed by `:` and a non-empty
numeric port.  Every string in this grammar is a host the WHATWG `URL`
constructor accepts unchanged. -/
def validHost (host : List Char) : Bool :=
  let name := host.takeWhile (fun c => c ≠ ':')
  let port := host.dropWhile (fun c => c ≠ ':')
  !name.isEmpty && name.all (fun c => c.isAlphanum || c = '.' || c = '-') &&
    (port.isEmpty || (decide (2 ≤ port.length) && (port.drop 1).all Char.isDigit))

/-- Conservative path characters that the WHATWG URL serializer keeps
verbatim. -/
def isPathChar (c : Char) : Bool :=
  c.isAlphanum || c = '/' || c = '.' || c = '-' || c = '_' || c = '~'

/-- `new URL(s)` for the engine's inputs: requires an `http://` or
`https://` scheme and, after it, a host and path in a conservative
validated fragment of the URL grammar, otherwise throws `Invalid URL`
(notably `new URL("http://")` throws, as does a host with a space or an
angle bracket).  Acceptance in the model implies the real constructor
accepts the string and serializes host and path unchanged; the model's
rejection stands both for real rejections and for the unmodelled
remainder of the grammar.  Query characters never make the constructor
throw and are taken verbatim (their percent-encoding is not modelled; no
claim inspects an encoded URL string). -/
def parseURL (s : String) : Except String URLModel :=
  if jsStartsWith s "http://" then
    let rest := s.data.drop 7
    let hostPath := rest.takeWhile (fun c => c ≠ '?')
    let qs := String.mk ((rest.dropWhile (fun c => c ≠ '?')).drop 1)
    let host := hostPath.takeWhile (fun c => c ≠ '/')
    let path := hostPath.dropWhile (fun c => c ≠ '/')
    if validHost host && path.all isPathChar then
      .ok { scheme := "http", hostPath := String.mk hostPath, query := parseQuery qs }
    else .error "Invalid URL"
  else if jsStartsWith s "https://" then
    let rest := s.data.drop 8
    let hostPath := rest.takeWhile (fun c => c ≠ '?')
    let qs := String.mk ((rest.dropWhile (fun c => c ≠ '?')).drop 1)
    let host := hostPath.takeWhile (fun c => c ≠ '/')
    let path := hostPath.dropWhile (fun c => c ≠ '/')
    if validHost host && path.all isPathChar then
      .ok { scheme := "https", hostPath := String.mk hostPath, query := parseQuery qs }
    else .error "Invalid URL"
  else .error "Invalid URL"

/-- `urlObj.toString()`. -/
def urlToString (u : URLModel) : String :=
  u.scheme ++ "://" ++ u.hostPath ++
    (if u.query.isEmpty then ""
     else "?" ++ String.intercalate "&" (u.query.map (fun p => p.1 ++ "=" ++ p.2)))

/-- The base64 alphabet. -/
def b64Alphabet : List Char :=
  "ABCDEFGHIJKLMNOPQRSTUVWXYZabcdefghijklmnopqrstuvwxyz0123456789+/".data

/-- The base64 digit for a 6-bit value. -/
def b64Char (n : Nat) : Char := b64Alphabet.getD n 'A'

/-- Base64-encode a byte list, with `=` padding. -/
def base64Encode : List Nat → List Char
  | [] => []
  | [a] => [b64Char (a / 4), b64Char (a % 4 * 16), '=', '=']
  | [a, b] => [b64Char (a / 4), b64Char (a % 4 * 16 + b / 16), b64Char (b % 16 * 4), '=']
  | a :: b :: c :: rest =>
    b64Char (a / 4) :: b64Char (a % 4 * 16 + b / 16) ::
      b64Char (b % 16 * 4 + c / 64) :: b64Char (c % 64) :: base64Encode rest

/-- JS `btoa`: base64 of the string's code points for a Latin-1 string,
and a thrown `InvalidCharacterError` for any code point above U+00FF. -/
def btoa (s : String) : Except String String :=
  if s.data.all (fun c => c.toNat ≤ 255) then
    .ok ⟨base64Encode (s.data.map Char.toNat)⟩
  else
    .error "InvalidCharacterError"

/-! ## Request execution engine (`executeRequest`) -/

/-- JS truthiness of a possibly-undefined string. -/
def truthyStr : Option String → Bool
  | some s => s ≠ ""
  | Option.none => false

/-- `x || undefined` on a possibly-undefined string. -/
def jsOrUndefined (o : Option String) : Option String :=
  if truthyStr o then o else Option.none

/-- The ECMAScript `trim()` whitespace set: WhiteSpace (TAB, VT, FF, SP,
NBSP, ZWNBSP and the Unicode Space_Separator category) together with the
LineTerminator set (LF, CR, LS, PS). -/
def jsWhitespace (c : Char) : Bool :=
  c.toNat = 0x9 || c.toNat = 0xA || c.toNat = 0xB || c.toNat = 0xC || c.toNat = 0xD ||
  c.toNat = 0x20 || c.toNat = 0xA0 || c.toNat = 0x1680 ||
  (decide (0x2000 ≤ c.toNat) && decide (c.toNat ≤ 0x200A)) ||
  c.toNat = 0x2028 || c.toNat = 0x2029 || c.toNat = 0x202F || c.toNat = 0x205F ||
  c.toNat = 0x3000 || c.toNat = 0xFEFF

/-- JS `String.prototype.trim()`: strip the full ECMAScript whitespace
set from both ends. -/
def jsTrim (s : String) : String :=
  ⟨((s.data.dropWhile jsWhitespace).reverse.dropWhile jsWhitespace).reverse⟩

/-- `key && key.trim()`: the value is a non-empty string with at least one
non-whitespace character. -/
def isNonBlank (s : String) : Bool := jsTrim s ≠ ""

/-- `x || d` on a possibly-undefined string entry (an existing empty
string is also replaced by the default, as in JS). -/
def jsOrDefault (o : Option String) (d : String) : String :=
  match o with
  | some v => if v = "" then d else v
  | Option.none => d

/-- The effective auth:
`request.auth.type === 'inherit' && inheritedAuth ? inheritedAuth :
request.auth`.  Note the code only tests that `inheritedAuth` is non-null,
not that its `type` differs from `none`. -/
def effectiveAuthOf (request : ApiRequest) (inheritedAuth : Option RequestAuth) : RequestAuth :=
  if request.auth.type = AuthType.inherit then
    match inheritedAuth with
    | some a => a
    | Option.none => request.auth
  else request.auth

/-- Strip any inline query string: `url.substring(0, url.indexOf('?'))`
when a `?` is present. -/
def stripInlineQuery (url : String) : String :=
  String.mk (url.data.takeWhile (fun c => c ≠ '?'))

/-- Append the enabled params (values variable-resolved) to the URL; the
`new URL(...)` construction only happens when at least one enabled param
with a non-empty key exists, and can throw. -/
def appendQueryParams (request : ApiRequest) (colVars envVars : List KeyValue)
    (url : String) : Except String String :=
  let enabledParams := request.params.filter (fun p => p.enabled ∧ p.key ≠ "")
  if enabledParams.isEmpty then .ok url
  else do
    let u ← parseURL (if jsStartsWith url "http" then url else "http://" ++ url)
    let q := enabledParams.foldl
      (fun q p => q ++ [(p.key, replaceVariables p.value colVars envVars)]) u.query
    .ok (urlToString { u with query := q })

/-- Append the api-key query pair when the effective auth is `api-key`
with `addTo = query`; the URL is parsed before the non-empty check, and
the pair is appended only when both resolved key and value are
non-blank. -/
def appendApiKeyQuery (effectiveAuth : RequestAuth) (colVars envVars : List KeyValue)
    (url : String) : Except String String :=
  match effectiveAuth.apiKey with
  | some ak =>
    if effectiveAuth.type = AuthType.apiKey ∧ ak.addTo = AddTo.query then do
      let u ← parseURL (if jsStartsWith url "http" then url else "http://" ++ url)
      let key := replaceVariables ak.key colVars envVars
      let value := replaceVariables ak.value colVars envVars
      if isNonBlank key ∧ isNonBlank value then
        .ok (urlToString { u with query := u.query ++ [(key, value)] })
      else .ok url
    else .ok url
  | Option.none => .ok url

/-- Steps 2 of the engine: resolve URL variables, strip the inline query,
append enabled params and the api-key query pair. -/
def buildTargetUrl (request : ApiRequest) (colVars envVars : List KeyValue)
    (effectiveAuth : RequestAuth) : Except String String := do
  let url := stripInlineQuery (replaceVariables request.url colVars envVars)
  let url ← appendQueryParams request colVars envVars url
  appendApiKeyQuery effectiveAuth colVars envVars url

/-- The enabled request headers: key trimmed, value resolved, empty values
permitted. -/
def buildRequestHeaders (request : ApiRequest) (colVars envVars : List KeyValue) :
    List (String × String) :=
  request.headers.foldl
    (fun hs h =>
      if h.enabled ∧ h.key ≠ "" ∧ jsTrim h.key ≠ "" then
        mapSet hs (jsTrim h.key) (replaceVariables h.value colVars envVars)
      else hs)
    []

/-- Overlay the auth-derived headers.  Bearer requires a non-blank
resolved token; basic requires only a non-blank resolved username
(`btoa(username + ':' + password)` is sent even for an empty password),
and `btoa` throws `InvalidCharacterError` for non-Latin-1 credentials —
an uncaught error, since this phase runs before the try/catch; an
api-key header requires both key and value non-blank. -/
def addAuthHeaders (effectiveAuth : RequestAuth) (colVars envVars : List KeyValue)
    (headers : List (String × String)) : Except String (List (String × String)) :=
  if effectiveAuth.type = AuthType.bearer then
    match effectiveAuth.bearer with
    | some b =>
      let token := replaceVariables b.token colVars envVars
      if isNonBlank token then .ok (mapSet headers "Authorization" ("Bearer " ++ token))
      else .ok headers
    | Option.none => .ok headers
  else if effectiveAuth.type = AuthType.basic then
    match effectiveAuth.basic with
    | some b =>
      let username := replaceVariables b.username colVars envVars
      let password := replaceVariables b.password colVars envVars
      if isNonBlank username then
        match btoa (username ++ ":" ++ password) with
        | .ok credentials => .ok (mapSet headers "Authorization" ("Basic " ++ credentials))
        | .error e => .error e
      else .ok headers
    | Option.none => .ok headers
  else
    match effectiveAuth.apiKey with
    | some ak =>
      if effectiveAuth.type = AuthType.apiKey ∧ ak.addTo = AddTo.header then
        let key := replaceVariables ak.key colVars envVars
        let value := replaceVariables ak.value colVars envVars
        if isNonBlank key ∧ isNonBlank value then .ok (mapSet headers key value)
        else .ok headers
      else .ok headers
    | Option.none => .ok headers

/-- The wire body: a string, or multipart form-data entries whose
`Content-Type` the transport must set itself. -/
inductive BodyVal where
  | str (s : String)
  | form (entries : List (String × String))
  deriving Repr, DecidableEq

/-- Delete a key from a JS-object header map. -/
def mapDelete (m : List (String × String)) (k : String) : List (String × String) :=
  m.filter (fun p => p.1 ≠ k)

/-- Step 4: construct the body for non-GET/HEAD methods, with the
`Content-Type` defaulting (json, urlencoded) and deletion (form-data)
side effects on the header map. -/
def buildBody (request : ApiRequest) (colVars envVars : List KeyValue)
    (headers : List (String × String)) : List (String × String) × Option BodyVal :=
  if request.method = HttpMethod.GET ∨ request.method = HttpMethod.HEAD then
    (headers, Option.none)
  else
    match request.body.type with
    | BodyType.json =>
      let headers := mapSet headers "Content-Type"
        (jsOrDefault (mapGet headers "Content-Type") "application/json")
      (headers, some (.str (replaceVariables (request.body.raw.getD "") colVars envVars)))
    | BodyType.raw =>
      (headers, some (.str (replaceVariables (request.body.raw.getD "") colVars envVars)))
    | BodyType.urlencoded =>
      let headers := mapSet headers "Content-Type"
        (jsOrDefault (mapGet headers "Content-Type") "application/x-www-form-urlencoded")
      let pairs := ((request.body.urlencoded.getD []).filter
          (fun i => i.enabled ∧ i.key ≠ "")).map
        (fun i => (i.key, replaceVariables i.value colVars envVars))
      (headers, some (.str (String.intercalate "&" (pairs.map (fun p => p.1 ++ "=" ++ p.2)))))
    | BodyType.formData =>
      let entries := ((request.body.formData.getD []).filter
          (fun i => i.enabled ∧ i.key ≠ "")).map
        (fun i => (i.key, replaceVariables i.value colVars envVars))
      (mapDelete headers "Content-Type", some (.form entries))
    | BodyType.none => (headers, Option.none)

/-- The argument record of the HTTP transport collaborator. -/
structure HttpCall where
  url : String
  method : HttpMethod
  headers : List (String × String)
  body : Option BodyVal

/-- The outcome of one `executeRequest` call, together with whether the
transport collaborator was invoked. -/
structure ExecOutcome where
  response : ApiResponse
  transportCalled : Bool
  deriving Repr, DecidableEq

/-- The early-return response for a failed pre-script. -/
def preErrorResponse (err : String) (output : Option String) : ApiResponse :=
  { status := 0, statusText := "Pre-Script Error", headers := [], body := ""
    time := 0, size := 0, preScriptError := some err
    preScriptOutput := jsOrUndefined output }

/-- The catch-all response for a transport-level failure (`statusText
'Error'`, JSON error body); the pre-script output is not attached on this
path. -/
def transportErrorResponse (msg : String) : ApiResponse :=
  { status := 0, statusText := "Error", headers := []
    body := "\x7b\"error\":\"" ++ msg ++ "\"\x7d", time := 0, size := 0 }

/-- `runScript` applied to a response: on return, attach the captured
console output (if any); on throw, attach the message as `scriptError`.
Status, body and headers are never altered. -/
def applyPostScript (script : Option (ApiResponse → List KeyValue → PostOutcome))
    (resp : ApiResponse) (envVars : List KeyValue) : ApiResponse :=
  match script with
  | Option.none => resp
  | some f =>
    match f resp envVars with
    | .ok o =>
      match o with
      | some s => { resp with scriptOutput := some s }
      | Option.none => resp
    | .threw m => { resp with scriptError := some m }

/-- `if (preScriptOutput) response.preScriptOutput = preScriptOutput`. -/
def attachPreOutput (o : Option String) (resp : ApiResponse) : ApiResponse :=
  if truthyStr o then { resp with preScriptOutput := o } else resp

/-- The transport phase: invoke the transport, run the post-script, attach
the pre-script output; a transport failure is caught and converted to the
zero-status error response. -/
def executeCore (transport : HttpCall → Except String ApiResponse) (request : ApiRequest)
    (envVars : List KeyValue) (url : String) (headers : List (String × String))
    (body : Option BodyVal) (preOut : Option String) : ExecOutcome :=
  match transport { url := url, method := request.method, headers := headers, body := body } with
  | .ok response =>
    let response := applyPostScript request.script response envVars
    { response := attachPreOutput preOut response, transportCalled := true }
  | .error e =>
    { response := transportErrorResponse e, transportCalled := true }

/-- `executeRequest({request, collectionVariables, environmentVariables,
inheritedAuth})`.  The auth resolution, URL/param building, header and
body construction happen before the try/catch around the transport, so a
URL-building failure or a `btoa` failure in the auth-header phase
propagates as `Except.error` (a thrown exception); everything after the
pre-script is total. -/
def executeRequest (transport : HttpCall → Except String ApiResponse) (request : ApiRequest)
    (collectionVariables environmentVariables : List KeyValue)
    (inheritedAuth : Option RequestAuth) : Except String ExecOutcome :=
  let effectiveAuth := effectiveAuthOf request inheritedAuth
  match buildTargetUrl request collectionVariables environmentVariables effectiveAuth with
  | .error e => .error e
  | .ok url =>
    match addAuthHeaders effectiveAuth collectionVariables environmentVariables
      (buildRequestHeaders request collectionVariables environmentVariables) with
    | .error e => .error e
    | .ok headers0 =>
      let hb := buildBody request collectionVariables environmentVariables headers0
      match request.preScript with
      | some pre =>
        let r := pre environmentVariables
        match r.error with
        | some err => .ok { response := preErrorResponse err r.output, transportCalled := false }
        | Option.none =>
          .ok (executeCore transport request environmentVariables url hb.1 hb.2 r.output)
      | Option.none =>
        .ok (executeCore transport request environmentVariables url hb.1 hb.2 Option.none)

/-! ## Folder tree and inherited auth (src/components, RunCollectionModal) -/

/-- A request folder: recursive, with its own optional auth. -/
inductive RequestFolder where
  | mk (id name : String) (requests : List ApiRequest) (folders : List RequestFolder)
      (auth : Option RequestAuth)

/-- The folder's id. -/
def RequestFolder.id : RequestFolder → String
  | .mk i _ _ _ _ => i

/-- The folder's child folders. -/
def RequestFolder.folders : RequestFolder → List RequestFolder
  | .mk _ _ _ fs _ => fs

/-- The folder's own auth. -/
def RequestFolder.auth : RequestFolder → Option RequestAuth
  | .mk _ _ _ _ a => a

/-- A collection: root requests and folders, collection variables and an
optional collection auth.  (`vars` models the TS `variables` field, whose
name is reserved in Lean.) -/
structure Collection where
  id : String
  name : String
  requests : List ApiRequest
  folders : List RequestFolder
  vars : List KeyValue
  auth : Option RequestAuth

/-- The recursive `findFolder` helper inside `getInheritedAuth`:
depth-first, current folder before its subfolders. -/
def findFolder (folderId : String) : List RequestFolder → Option RequestFolder
  | [] => Option.none
  | .mk i nm reqs subs au :: fs =>
    if i = folderId then some (.mk i nm reqs subs au)
    else
      match findFolder folderId subs with
      | some found => some found
      | Option.none => findFolder folderId fs

/-- `getInheritedAuth(collection, folderId)`: the owning folder's auth
when it exists and is not `none`, otherwise `collection.auth || null`. -/
def getInheritedAuth (collection : Collection) (folderId : Option String) :
    Option RequestAuth :=
  match folderId with
  | some fid =>
    match findFolder fid collection.folders with
    | some folder =>
      match folder.auth with
      | some a => if a.type ≠ AuthType.none then some a else collection.auth
      | Option.none => collection.auth
    | Option.none => collection.auth
  | Option.none => collection.auth

/-! ## Collection runner: sequential run loop -/

/-- A per-request result status. -/
inductive RStatus where
  | pending | running | success | failed | skipped
  deriving Repr, DecidableEq

/-- One slot of the runner's `results` list (name, method, url and
duration omitted: no claim concerns them). -/
structure RunResult where
  status : RStatus
  response : Option ApiResponse := Option.none
  error : Option String := Option.none
  deriving Repr, DecidableEq

/-- What one `executeRequest` call inside the runner's per-request
try/catch does: resolve with a response, or throw a message. -/
inductive ExecTry where
  | resp (r : ApiResponse)
  | thrown (msg : String)

/-- `response.status >= 200 && response.status < 400`. -/
def isSuccessStatus (r : ApiResponse) : Bool :=
  decide (200 ≤ r.status) && decide (r.status < 400)

/-- Whether a per-request outcome counts as a failure for `stopOnError`:
a non-success status, or a thrown exception. -/
def execFails : ExecTry → Bool
  | .resp r => !isSuccessStatus r
  | .thrown _ => true

/-- `prev.map((r, idx) => idx === i ? f(r) : r)`. -/
def updAt (rs : List RunResult) (i : Nat) (f : RunResult → RunResult) : List RunResult :=
  rs.mapIdx (fun idx r => if idx = i then f r else r)

/-- `prev.map((r, idx) => idx > i ? Object.assign(r, skipped) : r)`. -/
def markSkippedAfter (i : Nat) (rs : List RunResult) : List RunResult :=
  rs.mapIdx (fun idx r => if idx > i then { r with status := RStatus.skipped } else r)

/-- The fresh all-`pending` result list built at the start of each
iteration. -/
def initResults (n : Nat) : List RunResult :=
  List.replicate n { status := RStatus.pending }

/-- The sequential per-iteration loop of `runCollection`: before each
request check the abort flag (break, leaving the remaining slots as they
are), run the request, record `success` for an HTTP status in [200, 400)
and `failed` otherwise (or for a thrown exception, with its message), and
with `stopOnError` mark every later slot `skipped` and break.  The
transient `running` update and the pause busy-wait have no effect on the
final list and are elided. -/
def seqLoop (exec : Nat → ExecTry) (stopOnError : Bool) (aborted : Nat → Bool) :
    List Nat → List RunResult → List RunResult
  | [], results => results
  | i :: rest, results =>
    if aborted i then results
    else
      match exec i with
      | .resp r =>
        let ok := isSuccessStatus r
        let results' := updAt results i
          (fun x => { x with status := if ok then RStatus.success else RStatus.failed
                             response := some r })
        if !ok && stopOnError then markSkippedAfter i results'
        else seqLoop exec stopOnError aborted rest results'
      | .thrown msg =>
        let results' := updAt results i
          (fun x => { x with status := RStatus.failed, error := some msg })
        if stopOnError then markSkippedAfter i results'
        else seqLoop exec stopOnError aborted rest results'

/-- One sequential iteration from a fresh `pending` list, walking the
indices `0 .. n-1` in order. -/
def runSequential (exec : Nat → ExecTry) (stopOnError : Bool) (aborted : Nat → Bool)
    (n : Nat) : List RunResult :=
  seqLoop exec stopOnError aborted (List.range n) (initResults n)

/-- The whole sequential run: for each iteration, reset every result to
`pending` and run the sequential loop; the final `results` state is the
last iteration's outcome.  `exec it i` / `aborted it i` give the executor
outcome and the abort flag as observed at iteration `it`, request `i`.
Note the abort flag only breaks the inner loop: the iteration loop itself
performs no abort check. -/
def runCollectionSeq (iterations n : Nat) (exec : Nat → Nat → ExecTry)
    (aborted : Nat → Nat → Bool) (stopOnError : Bool) : List RunResult :=
  (List.range iterations).foldl
    (fun _ it => runSequential (exec it) stopOnError (aborted it) n)
    (initResults n)

/-- The status stored at slot `i`. -/
def statusAt (rs : List RunResult) (i : Nat) : Option RStatus :=
  (rs.get? i).map (fun r => r.status)

/-! ## Concrete fixtures used by witnesses and counterexamples -/

/-- An enabled, non-secret variable / header / param entry. -/
def mkKV (k v : String) : KeyValue :=
  { id := "", key := k, value := v, enabled := true }

/-- An enabled secret variable. -/
def secretKV (k v : String) : KeyValue :=
  { id := "", key := k, value := v, enabled := true, isSecret := true }

/-- A variable whose key is the regex metacharacter `.`. -/
def dotKV : KeyValue := mkKV "." "V"

/-- An empty request body. -/
def emptyBodyRec : RequestBody := { type := BodyType.none }

/-- Auth of type `none`. -/
def authNone : RequestAuth := { type := AuthType.none }

/-- Auth of type `inherit`. -/
def authInherit : RequestAuth := { type := AuthType.inherit }

/-- Bearer auth with token `T`. -/
def bearerAuthT : RequestAuth :=
  { type := AuthType.bearer, bearer := some { token := "T" } }

/-- Basic auth with a non-empty username and an empty password. -/
def basicEmptyPw : RequestAuth :=
  { type := AuthType.basic, basic := some { username := "u", password := "" } }

/-- A plain GET request with no scripts. -/
def baseReq : ApiRequest :=
  { id := "r", name := "r", method := HttpMethod.GET, url := "http://example.com"
    headers := [], params := [], body := emptyBodyRec, auth := authNone }

/-- A request whose auth is `inherit`. -/
def reqInherit : ApiRequest := { baseReq with auth := authInherit }

/-- A request with an empty URL but one enabled query param, which forces
`new URL('http://')` and a thrown `Invalid URL`. -/
def badUrlReq : ApiRequest := { baseReq with url := "", params := [mkKV "a" "b"] }

/-- A 200 transport response. -/
def okResponse : ApiResponse :=
  { status := 200, statusText := "OK", headers := [("h", "1")], body := "plain"
    time := 0, size := 0 }

/-- A 500 transport response. -/
def badStatusResponse : ApiResponse :=
  { status := 500, statusText := "ERR", headers := [], body := "", time := 0, size := 0 }

/-- A transport that always resolves with `okResponse`. -/
def okTransport : HttpCall → Except String ApiResponse := fun _ => .ok okResponse

/-- A folder carrying bearer auth. -/
def folder1 : RequestFolder := .mk "f1" "folder" [] [] (some bearerAuthT)

/-- A collection owning `folder1`, with basic collection auth. -/
def coll1 : Collection :=
  { id := "c", name := "c", requests := [], folders := [folder1], vars := []
    auth := some basicEmptyPw }

/-! ## Association-list lemmas -/

theorem find?_mapset_of_any (k v : String) :
    ∀ m : List (String × String), m.any (fun p => p.1 = k) = true →
      (m.map (fun p => if p.1 = k then (k, v) else p)).find? (fun p => decide (p.1 = k))
        = some (k, v) := by
  intro m
  induction m with
  | nil => intro h; simp at h
  | cons p ps ih =>
    intro h
    by_cases hp : p.1 = k
    · simp [List.find?, hp]
    · simp only [List.any_cons, Bool.or_eq_true, decide_eq_true_eq] at h
      rcases h with h | h
      · exact absurd h hp
      · simp only [List.map_cons, if_neg hp, List.find?, decide_eq_false hp]
        exact ih h

theorem find?_append_single_of_not_any (k v : String) :
    ∀ m : List (String × String), m.any (fun p => p.1 = k) = false →
      (m ++ [(k, v)]).find? (fun p => decide (p.1 = k)) = some (k, v) := by
  intro m
  induction m with
  | nil => simp [List.find?]
  | cons p ps ih =>
    intro h
    simp only [List.any_cons, Bool.or_eq_false_iff, decide_eq_false_iff_not] at h
    simp only [List.cons_append, List.find?, decide_eq_false h.1]
    exact ih (by simp [h.2])

/-- Looking up a key just set always yields the set value. -/
theorem mapGet_mapSet_self (m : List (String × String)) (k v : String) :
    mapGet (mapSet m k v) k = some v := by
  unfold mapGet mapSet
  by_cases h : m.any (fun p => p.1 = k) = true
  · rw [if_pos h, find?_mapset_of_any k v m h]
    rfl
  · rw [if_neg h, find?_append_single_of_not_any k v m (by revert h; cases hx : m.any (fun p => p.1 = k) <;> simp)]
    rfl

/-! ## Claim C4: effective auth for `inherit` requests -/

/-- C4 counterexample: for a request with `auth.type = 'inherit'` and a
supplied `inheritedAuth` of type `'none'`, the code uses the supplied
`inheritedAuth` as the effective auth, not the request's own auth
verbatim as the claim states. -/
theorem c4_counterexample :
    effectiveAuthOf reqInherit (some authNone) = authNone ∧
    authNone ≠ reqInherit.auth := by
  constructor
  · rfl
  · intro h
    simp [authNone, reqInherit, authInherit, baseReq] at h

/-- C4 (amended): with `auth.type = 'inherit'`, any supplied
`inheritedAuth` — even one of type `'none'` — is used as the effective
auth; `request.auth` is used verbatim only when no `inheritedAuth` is
supplied or the request's auth type is not `'inherit'`.  The caller's
`getInheritedAuth` yields the owning folder's auth when the folder is
found with an auth that is set and not `'none'`, and falls back to the
collection's auth in every other case. -/
theorem c4_inherit_auth_amended (request : ApiRequest) (a : RequestAuth)
    (ia : Option RequestAuth) (collection : Collection) (f : RequestFolder)
    (fid : String) (fa : RequestAuth) :
    (request.auth.type = AuthType.inherit → effectiveAuthOf request (some a) = a) ∧
    (effectiveAuthOf request Option.none = request.auth) ∧
    (request.auth.type ≠ AuthType.inherit → effectiveAuthOf request ia = request.auth) ∧
    (findFolder fid collection.folders = some f → f.auth = some fa →
      fa.type ≠ AuthType.none → getInheritedAuth collection (some fid) = some fa) ∧
    (findFolder fid collection.folders = some f → f.auth = some fa →
      fa.type = AuthType.none → getInheritedAuth collection (some fid) = collection.auth) ∧
    (findFolder fid collection.folders = some f → f.auth = Option.none →
      getInheritedAuth collection (some fid) = collection.auth) ∧
    (findFolder fid collection.folders = Option.none →
      getInheritedAuth collection (some fid) = collection.auth) ∧
    (getInheritedAuth collection Option.none = collection.auth) := by
  refine ⟨?_, ?_, ?_, ?_, ?_, ?_, ?_, ?_⟩
  · intro h; simp [effectiveAuthOf, h]
  · unfold effectiveAuthOf; split <;> rfl
  · intro h; simp [effectiveAuthOf, h]
  · intro h1 h2 h3; simp [getInheritedAuth, h1, h2, h3]
  · intro h1 h2 h3; simp [getInheritedAuth, h1, h2, h3]
  · intro h1 h2; simp [getInheritedAuth, h1, h2]
  · intro h1; simp [getInheritedAuth, h1]
  · rfl

/-- C4 witness: the amended theorem applied at concrete inputs — a
supplied `none`-typed inherited auth is used verbatim, and
`getInheritedAuth` returns the folder's bearer auth. -/
theorem c4_witness :
    effectiveAuthOf reqInherit (some authNone) = authNone ∧
    getInheritedAuth coll1 (some "f1") = some bearerAuthT := by
  constructor
  · exact (c4_inherit_auth_amended reqInherit authNone Option.none coll1 folder1 "f1"
      bearerAuthT).1 rfl
  · exact (c4_inherit_auth_amended reqInherit bearerAuthT Option.none coll1 folder1 "f1"
      bearerAuthT).2.2.2.1 (by simp [coll1, findFolder, folder1]) rfl (by decide)

/-! ## Claim C5: auth-derived headers -/

/-- C5 counterexample: with basic auth `{username: 'u', password: ''}` the
resolved password is empty, yet the `Authorization` header is added — the
code only requires a non-blank username, contradicting the claim's "only
when both resolved basic-auth values are non-empty". -/
theorem c5_counterexample :
    (addAuthHeaders basicEmptyPw [] [] []).map (fun hs => mapGet hs "Authorization")
      = .ok (some ("Basic " ++ "dTo=")) ∧
    btoa ("u" ++ ":" ++ "") = .ok "dTo=" ∧
    replaceVariables "" [] [] = "" := by
  refine ⟨rfl, rfl, rfl⟩

/-- C5 (amended): the bearer `Authorization` header is added exactly when
the resolved token is non-blank (JS `trim`); when the resolved basic-auth
username is non-blank the code attempts `btoa(username + ':' + password)`
— if every credential code point is Latin-1 the `Basic` header is added
even for an empty password, and otherwise `btoa` throws
`InvalidCharacterError` out of the (pre-try) header phase; a custom
api-key header is added exactly when both the resolved key and value are
non-blank; and a request with `auth.type = 'inherit'` inheriting a
folder's bearer auth sends `Authorization: Bearer <resolved token>`. -/
theorem c5_auth_headers_amended (cv ev : List KeyValue) (hs : List (String × String))
    (eff : RequestAuth) (b : BearerAuth) (ba : BasicAuth) (ak : ApiKeyAuth)
    (request : ApiRequest) (collection : Collection) (fid : String) (fa : RequestAuth)
    (cred e : String) :
    (eff.type = AuthType.bearer → eff.bearer = some b →
      isNonBlank (replaceVariables b.token cv ev) = true →
      ∃ hs2, addAuthHeaders eff cv ev hs = .ok hs2 ∧
        mapGet hs2 "Authorization" = some ("Bearer " ++ replaceVariables b.token cv ev)) ∧
    (eff.type = AuthType.bearer → eff.bearer = some b →
      isNonBlank (replaceVariables b.token cv ev) = false →
      addAuthHeaders eff cv ev hs = .ok hs) ∧
    (eff.type = AuthType.basic → eff.basic = some ba →
      isNonBlank (replaceVariables ba.username cv ev) = true →
      btoa (replaceVariables ba.username cv ev ++ ":" ++ replaceVariables ba.password cv ev)
        = .ok cred →
      ∃ hs2, addAuthHeaders eff cv ev hs = .ok hs2 ∧
        mapGet hs2 "Authorization" = some ("Basic " ++ cred)) ∧
    (eff.type = AuthType.basic → eff.basic = some ba →
      isNonBlank (replaceVariables ba.username cv ev) = true →
      btoa (replaceVariables ba.username cv ev ++ ":" ++ replaceVariables ba.password cv ev)
        = .error e →
      addAuthHeaders eff cv ev hs = .error e) ∧
    (eff.type = AuthType.basic → eff.basic = some ba →
      isNonBlank (replaceVariables ba.username cv ev) = false →
      addAuthHeaders eff cv ev hs = .ok hs) ∧
    (eff.type = AuthType.apiKey → eff.apiKey = some ak → ak.addTo = AddTo.header →
      isNonBlank (replaceVariables ak.key cv ev) = true →
      isNonBlank (replaceVariables ak.value cv ev) = true →
      ∃ hs2, addAuthHeaders eff cv ev hs = .ok hs2 ∧
        mapGet hs2 (replaceVariables ak.key cv ev)
          = some (replaceVariables ak.value cv ev)) ∧
    (eff.type = AuthType.apiKey → eff.apiKey = some ak → ak.addTo = AddTo.header →
      (isNonBlank (replaceVariables ak.key cv ev) = false ∨
        isNonBlank (replaceVariables ak.value cv ev) = false) →
      addAuthHeaders eff cv ev hs = .ok hs) ∧
    (request.auth.type = AuthType.inherit →
      getInheritedAuth collection (some fid) = some fa →
      fa.type = AuthType.bearer → fa.bearer = some b →
      isNonBlank (replaceVariables b.token cv ev) = true →
      ∃ hs2, addAuthHeaders (effectiveAuthOf request (getInheritedAuth collection (some fid)))
          cv ev (buildRequestHeaders request cv ev) = .ok hs2 ∧
        mapGet hs2 "Authorization" = some ("Bearer " ++ replaceVariables b.token cv ev)) := by
  refine ⟨?_, ?_, ?_, ?_, ?_, ?_, ?_, ?_⟩
  · intro h1 h2 h3
    refine ⟨mapSet hs "Authorization" ("Bearer " ++ replaceVariables b.token cv ev),
      ?_, mapGet_mapSet_self hs _ _⟩
    simp [addAuthHeaders, h1, h2, h3]
  · intro h1 h2 h3
    simp [addAuthHeaders, h1, h2, h3]
  · intro h1 h2 h3 hb
    refine ⟨mapSet hs "Authorization" ("Basic " ++ cred), ?_, mapGet_mapSet_self hs _ _⟩
    simp [addAuthHeaders, h1, h2, h3, hb]
  · intro h1 h2 h3 hb
    simp [addAuthHeaders, h1, h2, h3, hb]
  · intro h1 h2 h3
    simp [addAuthHeaders, h1, h2, h3]
  · intro h1 h2 h3 h4 h5
    refine ⟨mapSet hs (replaceVariables ak.key cv ev) (replaceVariables ak.value cv ev),
      ?_, mapGet_mapSet_self hs _ _⟩
    simp [addAuthHeaders, h1, h2, h3, h4, h5]
  · intro h1 h2 h3 h4
    rcases h4 with h4 | h4 <;> simp [addAuthHeaders, h1, h2, h3, h4]
  · intro h1 h2 h3 h4 h5
    rw [h2]
    simp only [effectiveAuthOf, h1, if_pos rfl]
    refine ⟨mapSet (buildRequestHeaders request cv ev) "Authorization"
      ("Bearer " ++ replaceVariables b.token cv ev), ?_, mapGet_mapSet_self _ _ _⟩
    simp [addAuthHeaders, h3, h4, h5]

/-- C5 witness: the amended theorem applied at concrete inputs — a direct
bearer header, and the inherit-from-folder bearer case. -/
theorem c5_witness :
    (∃ hs2, addAuthHeaders bearerAuthT [] [] [] = .ok hs2 ∧
      mapGet hs2 "Authorization" = some ("Bearer " ++ replaceVariables "T" [] [])) ∧
    (∃ hs2, addAuthHeaders (effectiveAuthOf reqInherit (getInheritedAuth coll1 (some "f1")))
        [] [] (buildRequestHeaders reqInherit [] []) = .ok hs2 ∧
      mapGet hs2 "Authorization" = some ("Bearer " ++ replaceVariables "T" [] [])) := by
  constructor
  · exact (c5_auth_headers_amended [] [] [] bearerAuthT ⟨"T"⟩ ⟨"u", ""⟩
      ⟨"k", "v", AddTo.header⟩ reqInherit coll1 "f1" bearerAuthT "" "").1 rfl rfl (by decide)
  · exact (c5_auth_headers_amended [] [] [] bearerAuthT ⟨"T"⟩ ⟨"u", ""⟩
      ⟨"k", "v", AddTo.header⟩ reqInherit coll1 "f1" bearerAuthT "" "").2.2.2.2.2.2.2 rfl
      (by simp [getInheritedAuth, coll1, findFolder, folder1, RequestFolder.auth, bearerAuthT])
      rfl rfl (by decide)

/-! ## Claim C1: a pre-script error is fatal and skips the transport -/

/-- C1: when the request reaches the pre-script phase — the URL build and
the auth-header phase did not throw — and the pre-script yields an error,
`executeRequest` returns a response with status 0, statusText
`Pre-Script Error` and the error in `preScriptError`, and the transport
is never invoked. -/
theorem c1_prescript_fatal (transport : HttpCall → Except String ApiResponse)
    (request : ApiRequest) (cv ev : List KeyValue) (ia : Option RequestAuth)
    (pre : List KeyValue → PreScriptResult) (msg : String) (u : String)
    (hs : List (String × String))
    (hpre : request.preScript = some pre)
    (herr : (pre ev).error = some msg)
    (hurl : buildTargetUrl request cv ev (effectiveAuthOf request ia) = .ok u)
    (hhdr : addAuthHeaders (effectiveAuthOf request ia) cv ev
      (buildRequestHeaders request cv ev) = .ok hs) :
    executeRequest transport request cv ev ia =
      .ok { response := preErrorResponse msg (pre ev).output, transportCalled := false } ∧
    (preErrorResponse msg (pre ev).output).status = 0 ∧
    (preErrorResponse msg (pre ev).output).statusText = "Pre-Script Error" ∧
    (preErrorResponse msg (pre ev).output).preScriptError = some msg := by
  refine ⟨?_, rfl, rfl, rfl⟩
  unfold executeRequest
  dsimp only
  rw [hurl]
  dsimp only
  rw [hhdr]
  dsimp only
  rw [hpre]
  dsimp only
  rw [herr]

/-- A request whose pre-script errors with message `boom`. -/
def preErrReq : ApiRequest :=
  { baseReq with preScript := some (fun _ => { error := some "boom" }) }

/-- C1 witness: the theorem applied at a concrete erroring pre-script —
the transport spy records zero calls and the response is the pre-script
error response. -/
theorem c1_witness :
    executeRequest okTransport preErrReq [] [] Option.none =
      .ok { response := preErrorResponse "boom" Option.none, transportCalled := false } :=
  (c1_prescript_fatal okTransport preErrReq [] [] Option.none
    (fun _ => { error := some "boom" }) "boom" "http://example.com" []
    rfl rfl rfl rfl).1

/-! ## Claim C2: a post-script error is non-fatal -/

/-- C8 counterexample: for a request with an empty URL and one enabled
query param, `new URL('http://')` throws while building the target URL,
and the exception propagates out of `executeRequest` instead of being
returned as a structured response. -/
theorem c8_counterexample :
    executeRequest okTransport badUrlReq [] [] Option.none = .error "Invalid URL" := by
  rfl

/-- C8 (amended): once the URL/param building phase has succeeded, the
remaining throw path is the auth-header phase: if it returns headers,
`executeRequest` is total — pre-script errors, post-script errors and
transport failures are all captured and returned as a structured
response, for every transport and script behaviour — and if it throws
(`btoa` on non-Latin-1 basic credentials), that exception propagates out
of `executeRequest`. -/
theorem c8_no_throw_beyond_url (transport : HttpCall → Except String ApiResponse)
    (request : ApiRequest) (cv ev : List KeyValue) (ia : Option RequestAuth)
    (u : String) (hs : List (String × String)) (e : String)
    (hurl : buildTargetUrl request cv ev (effectiveAuthOf request ia) = .ok u) :
    (addAuthHeaders (effectiveAuthOf request ia) cv ev
        (buildRequestHeaders request cv ev) = .ok hs →
      ∃ out, executeRequest transport request cv ev ia = .ok out) ∧
    (addAuthHeaders (effectiveAuthOf request ia) cv ev
        (buildRequestHeaders request cv ev) = .error e →
      executeRequest transport request cv ev ia = .error e) := by
  constructor
  · intro hhdr
    unfold executeRequest
    dsimp only
    rw [hurl]
    dsimp only
    rw [hhdr]
    dsimp only
    cases request.preScript with
    | none => exact ⟨_, rfl⟩
    | some pre =>
      dsimp only
      cases (pre ev).error with
      | none => exact ⟨_, rfl⟩
      | some err => exact ⟨_, rfl⟩
  · intro hhdr
    unfold executeRequest
    dsimp only
    rw [hurl]
    dsimp only
    rw [hhdr]

/-- A transport that always rejects. -/
def failingTransport : HttpCall → Except String ApiResponse :=
  fun _ => .error "net down"

/-- C8 witness: the amended theorem applied to a concrete request with a
rejecting transport — the failure comes back as a structured response. -/
theorem c8_witness :
    (∃ out, executeRequest failingTransport baseReq [] [] Option.none = .ok out) ∧
    executeRequest failingTransport baseReq [] [] Option.none =
      .ok { response := transportErrorResponse "net down", transportCalled := true } := by
  constructor
  · exact (c8_no_throw_beyond_url failingTransport baseReq [] [] Option.none
      "http://example.com" [] "" rfl).1 rfl
  · rfl

/-! ## Runner lemmas -/

theorem statusAt_mapIdx (f : Nat → RunResult → RunResult) (rs : List RunResult) (k : Nat) :
    statusAt (rs.mapIdx f) k = (rs.get? k).map (fun r => (f k r).status) := by
  unfold statusAt
  by_cases h : k < rs.length
  · rw [List.get?_eq_get h,
      List.get?_eq_get (show k < (rs.mapIdx f).length by simpa [List.length_mapIdx] using h)]
    simp [List.get_mapIdx]
  · have h1 : (rs.mapIdx f).get? k = none :=
      List.get?_eq_none.2 (by simp only [List.length_mapIdx]; omega)
    have h2 : rs.get? k = none := List.get?_eq_none.2 (by omega)
    rw [h1, h2]
    rfl

theorem length_updAt (rs : List RunResult) (i : Nat) (f : RunResult → RunResult) :
    (updAt rs i f).length = rs.length := by
  simp [updAt, List.length_mapIdx]

theorem statusAt_markSkippedAfter (i k : Nat) (rs : List RunResult)
    (hik : i < k) (hk : k < rs.length) :
    statusAt (markSkippedAfter i rs) k = some RStatus.skipped := by
  unfold markSkippedAfter
  rw [statusAt_mapIdx, List.get?_eq_get hk]
  simp [hik]

/-! ## Claim C6: stop-on-error skips the remaining requests -/

theorem seqLoop_skip_aux (exec : Nat → ExecTry) (i n : Nat)
    (hfail : execFails (exec i) = true) (hin : i < n) :
    ∀ d m rs, m + d = i →
      (∀ j, m ≤ j → j < i → execFails (exec j) = false) →
      rs.length = n →
      ∀ k, i < k → k < n →
        statusAt (seqLoop exec true (fun _ => false) (List.range' m (n - m)) rs) k
          = some RStatus.skipped := by
  intro d
  induction d with
  | zero =>
    intro m rs hmd hok hlen k hik hkn
    have hm : m = i := by omega
    subst hm
    have hsplit : n - m = (n - (m + 1)) + 1 := by omega
    rw [hsplit, List.range'_succ]
    unfold seqLoop
    cases he : exec m with
    | resp r =>
      have hko : isSuccessStatus r = false := by
        have hf := hfail
        rw [he] at hf
        simpa [execFails] using hf
      dsimp only
      rw [hko]
      simp only [Bool.not_false, Bool.true_and, if_true]
      exact statusAt_markSkippedAfter m k _ hik
        (by rw [length_updAt, hlen]; exact hkn)
    | thrown msg =>
      dsimp only
      simp only [if_true]
      exact statusAt_markSkippedAfter m k _ hik
        (by rw [length_updAt, hlen]; exact hkn)
  | succ d ih =>
    intro m rs hmd hok hlen k hik hkn
    have hmlt : m < i := by omega
    have hsplit : n - m = (n - (m + 1)) + 1 := by omega
    rw [hsplit, List.range'_succ]
    unfold seqLoop
    cases he : exec m with
    | resp r =>
      have hsucc : isSuccessStatus r = true := by
        have hf := hok m (Nat.le_refl m) hmlt
        rw [he] at hf
        simpa [execFails] using hf
      dsimp only
      rw [hsucc]
      simp only [Bool.not_true, Bool.false_and, if_false]
      exact ih (m + 1) _ (by omega)
        (fun j hj1 hj2 => hok j (by omega) hj2)
        (by rw [length_updAt]; exact hlen) k hik hkn
    | thrown msg =>
      have hf := hok m (Nat.le_refl m) hmlt
      rw [he] at hf
      simp [execFails] at hf

/-- C6: in a sequential run with `stopOnError = true` and no abort, if
the requests before index `i` succeed and the one at `i` fails (bad
status or thrown error), every slot after `i` ends the iteration with
status `skipped` — never `success` or `failed`. -/
theorem c6_stop_on_error (exec : Nat → ExecTry) (n i : Nat)
    (hi : i < n)
    (hok : ∀ j, j < i → execFails (exec j) = false)
    (hfail : execFails (exec i) = true) :
    ∀ k, i < k → k < n →
      statusAt (runSequential exec true (fun _ => false) n) k = some RStatus.skipped := by
  intro k hik hkn
  unfold runSequential
  rw [List.range_eq_range', show List.range' 0 n = List.range' 0 (n - 0) by simp]
  exact seqLoop_skip_aux exec i n hfail hi i 0 (initResults n) (by omega)
    (fun j _ hj2 => hok j hj2) (by simp [initResults]) k hik hkn

/-- The spec's `[A(success), B(fails), C(pending)]` executor. -/
def c6exec : Nat → ExecTry
  | 0 => .resp okResponse
  | 1 => .resp badStatusResponse
  | _ => .resp okResponse

/-- C6 witness: the theorem applied to the spec's three-request example —
C ends the run `skipped`. -/
theorem c6_witness :
    statusAt (runSequential c6exec true (fun _ => false) 3) 2 = some RStatus.skipped := by
  refine c6_stop_on_error c6exec 3 1 (by omega) ?_ (by decide) 2 (by omega) (by omega)
  intro j hj
  interval_cases j
  decide

/-! ## Claim C7: abort must not discard completed results -/

/-- An executor for which every request of every iteration succeeds. -/
def c7exec : Nat → Nat → ExecTry := fun _ _ => .resp okResponse

/-- An abort flag raised after the first request of iteration 0 has
completed: false only at iteration 0, request 0. -/
def c7aborted : Nat → Nat → Bool := fun it i => decide (1 ≤ it) || decide (1 ≤ i)

/-- C7 (code bug): in a 2-iteration sequential run over 2 requests where
request 0 of iteration 0 completes with `success` and abort is then
requested, the runner's iteration loop — which has no abort check of its
own — starts iteration 1 and resets every slot to `pending`, discarding
the already-completed `success` result; the claim (and the spec) say a
completed slot is never discarded or reset. -/
theorem c7_abort_discards_results :
    statusAt (runSequential (c7exec 0) false (c7aborted 0) 2) 0 = some RStatus.success ∧
    statusAt (runCollectionSeq 2 2 c7exec c7aborted false) 0 = some RStatus.pending := by
  constructor <;> decide

/-! ## Regex-versus-literal substitution lemmas (claims C3, C9, C10) -/

theorem consumePat_lit (xs : List Char) :
    ∀ t, consumePat (xs.map PChar.lit) t
      = if xs.isPrefixOf t then some (t.drop xs.length) else none := by
  induction xs with
  | nil => intro t; simp [consumePat]
  | cons x xs ih =>
    intro t
    cases t with
    | nil => simp [consumePat, List.isPrefixOf]
    | cons c cs =>
      simp only [List.map_cons, consumePat, pcharMatches, List.isPrefixOf_cons₂]
      by_cases hx : x = c
      · subst hx
        simp [ih cs]
      · simp [hx, beq_false_of_ne hx]

theorem expandRepl_no_dollar (matched before after : List Char) :
    ∀ repl, '$' ∉ repl → expandRepl matched before after repl = repl := by
  intro repl
  induction repl with
  | nil => intro _; rfl
  | cons c rest ih =>
    intro h
    have hc : c ≠ '$' := fun hcc => h (by rw [hcc]; exact List.mem_cons_self _ _)
    rw [expandRepl.eq_def]
    simp only [if_neg hc]
    rw [ih (fun hm => h (List.mem_cons_of_mem c hm))]

theorem replaceAllFrom_nil_pat (repl orig : List Char) :
    ∀ t pos, replaceAllFrom [] repl orig pos t = t := by
  intro t
  induction t with
  | nil => intro pos; rw [replaceAllFrom]
  | cons c cs ih =>
    intro pos
    rw [replaceAllFrom]
    dsimp only [consumePat]
    rw [ih]
    exact dif_pos rfl

theorem replaceAll_nil (repl : List Char) : ∀ t, replaceAll [] repl t = t := by
  intro t
  rw [replaceAll, replaceAllFrom_nil_pat]

theorem litReplaceAll_nil (repl : List Char) : ∀ t, litReplaceAll [] repl t = t := by
  intro t
  induction t with
  | nil => rw [litReplaceAll]
  | cons c cs ih =>
    rw [litReplaceAll]
    rw [dif_neg (by simp)]
    rw [ih]

theorem replaceAllFrom_lit_eq (xs : List Char) (repl : List Char)
    (hx : xs ≠ []) (hd : '$' ∉ repl) :
    ∀ (len : Nat) (t : List Char), t.length ≤ len → ∀ (orig : List Char) (pos : Nat),
      replaceAllFrom (xs.map PChar.lit) repl orig pos t = litReplaceAll xs repl t := by
  intro len
  induction len with
  | zero =>
    intro t hl orig pos
    cases t with
    | nil => rw [replaceAllFrom, litReplaceAll]
    | cons c cs => simp at hl
  | succ len ih =>
    intro t hl orig pos
    cases t with
    | nil => rw [replaceAllFrom, litReplaceAll]
    | cons c cs =>
      rw [replaceAllFrom, litReplaceAll]
      rw [consumePat_lit]
      by_cases hp : xs.isPrefixOf (c :: cs)
      · rw [if_pos hp]
        dsimp only
        rw [dif_neg (by simp [hx]), dif_pos ⟨hx, hp⟩]
        rw [expandRepl_no_dollar _ _ _ repl hd]
        have hxl : 1 ≤ xs.length := by
          cases xs with
          | nil => exact absurd rfl hx
          | cons a as => simp
        rw [ih ((c :: cs).drop xs.length) (by simp at hl ⊢; omega) orig
          (pos + (xs.map PChar.lit).length)]
      · rw [if_neg hp]
        dsimp only
        rw [dif_neg (fun hh => hp hh.2)]
        rw [ih cs (by simp at hl; omega) orig (pos + 1)]

theorem replaceAll_lit_eq (xs : List Char) (repl : List Char) (hd : '$' ∉ repl) :
    ∀ t, replaceAll (xs.map PChar.lit) repl t = litReplaceAll xs repl t := by
  by_cases hx : xs = []
  · subst hx
    intro t
    rw [List.map_nil, replaceAll, replaceAllFrom_nil_pat, litReplaceAll_nil]
  · intro t
    rw [replaceAll]
    exact replaceAllFrom_lit_eq xs repl hx hd t.length t (Nat.le_refl _) t 0

/-- For a key with no `.`, the compiled pattern is the literal token. -/
theorem keyPattern_eq_lit (k : String) (h : ∀ c ∈ k.data, c ≠ '.') :
    keyPattern k = (tokChars k.data).map PChar.lit := by
  unfold keyPattern
  apply List.map_congr_left
  intro c hc
  unfold tokChars at hc
  simp only [List.mem_cons, List.mem_append, List.mem_singleton] at hc
  have hcd : c ≠ '.' := by
    rcases hc with h1 | h1 | h1 | h1 | h1 | h1
    · subst h1; decide
    · subst h1; decide
    · exact h c h1
    · subst h1; decide
    · subst h1; decide
    · simp at h1
  simp [toPChar, hcd]

theorem mapSet_mem (m : List (String × String)) (k v : String) :
    ∀ e ∈ mapSet m k v, e = (k, v) ∨ e ∈ m := by
  intro e he
  unfold mapSet at he
  split at he
  · rw [List.mem_map] at he
    obtain ⟨p, hp, hpe⟩ := he
    by_cases hk : p.1 = k
    · left; rw [← hpe]; simp [hk]
    · right; rw [← hpe]; simp only [if_neg hk]; exact hp
  · rw [List.mem_append] at he
    rcases he with he | he
    · right; exact he
    · left; simpa using he

theorem foldl_vars_mem (l : List KeyValue) :
    ∀ (m : List (String × String)) (e : String × String),
      e ∈ l.foldl (fun m v => if v.enabled then mapSet m v.key (getEffectiveValue v) else m) m →
      e ∈ m ∨ ∃ v ∈ l, v.enabled = true ∧ e = (v.key, getEffectiveValue v) := by
  induction l with
  | nil => intro m e he; left; exact he
  | cons v l ih =>
    intro m e he
    simp only [List.foldl_cons] at he
    by_cases hv : v.enabled
    · rw [if_pos hv] at he
      rcases ih _ _ he with hm | ⟨w, hw1, hw2, hw3⟩
      · rcases mapSet_mem m v.key (getEffectiveValue v) e hm with hk | hk
        · right; exact ⟨v, List.mem_cons_self v l, by simp [hv], hk⟩
        · left; exact hk
      · right; exact ⟨w, List.mem_cons_of_mem v hw1, hw2, hw3⟩
    · rw [if_neg hv] at he
      rcases ih _ _ he with hm | ⟨w, hw1, hw2, hw3⟩
      · left; exact hm
      · right; exact ⟨w, List.mem_cons_of_mem v hw1, hw2, hw3⟩

/-- Every entry of the variable map is the key and effective value of
some enabled variable. -/
theorem buildVariableMap_mem (cv ev : List KeyValue) (e : String × String)
    (he : e ∈ buildVariableMap cv ev) :
    ∃ v ∈ cv ++ ev, v.enabled = true ∧ e = (v.key, getEffectiveValue v) := by
  unfold buildVariableMap at he
  rcases foldl_vars_mem ev _ e he with hm | ⟨w, hw1, hw2, hw3⟩
  · rcases foldl_vars_mem cv [] e hm with hz | ⟨w, hw1, hw2, hw3⟩
    · simp at hz
    · exact ⟨w, List.mem_append_left ev hw1, hw2, hw3⟩
  · exact ⟨w, List.mem_append_right cv hw1, hw2, hw3⟩

/-- Every key in the variable map comes from an enabled variable. -/
theorem buildVariableMap_keys (cv ev : List KeyValue) (e : String × String)
    (he : e ∈ buildVariableMap cv ev) :
    ∃ v ∈ cv ++ ev, v.enabled = true ∧ v.key = e.1 := by
  obtain ⟨v, h1, h2, h3⟩ := buildVariableMap_mem cv ev e he
  exact ⟨v, h1, h2, by rw [h3]⟩

/-- On variable maps whose keys avoid `.` and whose values avoid `$`, the
regex fold and the literal fold agree. -/
theorem foldl_replaceAll_eq_lit (m : List (String × String))
    (hm : ∀ e ∈ m, (∀ c ∈ e.1.data, c ≠ '.') ∧ '$' ∉ e.2.data) :
    ∀ acc, m.foldl (fun acc e => replaceAll (keyPattern e.1) e.2.data acc) acc
      = m.foldl (fun acc e => litReplaceAll (tokChars e.1.data) e.2.data acc) acc := by
  induction m with
  | nil => intro acc; rfl
  | cons e m ih =>
    intro acc
    simp only [List.foldl_cons]
    obtain ⟨hdot, hdol⟩ := hm e (List.mem_cons_self e m)
    rw [keyPattern_eq_lit e.1 hdot, replaceAll_lit_eq _ _ hdol]
    exact ih (fun x hx => hm x (List.mem_cons_of_mem e hx)) _

/-- When every enabled key is regex-neutral and every enabled effective
value is free of `$` (so `GetSubstitution` leaves it verbatim),
`replaceVariables` coincides with the literal-substitution reading of the
spec. -/
theorem replaceVariables_eq_spec_of_neutral (text : String) (cv ev : List KeyValue)
    (h : ∀ v ∈ cv ++ ev, v.enabled = true →
      regexNeutral v.key ∧ '$' ∉ (getEffectiveValue v).data) :
    replaceVariables text cv ev = replaceVariablesSpec text cv ev := by
  unfold replaceVariables replaceVariablesSpec
  dsimp only
  apply congrArg String.mk
  apply (foldl_replaceAll_eq_lit _ · text.data)
  intro e he
  obtain ⟨v, hv1, hv2, hv3⟩ := buildVariableMap_mem cv ev e he
  obtain ⟨hneutral, hdollar⟩ := h v hv1 hv2
  constructor
  · intro c hc hdot
    rw [hv3] at hc
    exact hneutral c hc (by rw [hdot]; simp [regexMetaChars])
  · rw [hv3]
    exact hdollar

/-- The regex built from the key `.` replaces `<<a>>`, which is not a
literal occurrence of `<<.>>`. -/
theorem dotkey_regex_hits : replaceVariables "<<a>>" [] [dotKV] = "V" := by
  simp only [replaceVariables, buildVariableMap, mapSet, getEffectiveValue, dotKV, mkKV]
  simp [keyPattern, tokChars, toPChar, replaceAll, replaceAllFrom, expandRepl,
    consumePat, pcharMatches]

/-- Literal substitution of `<<.>>` leaves `<<a>>` untouched. -/
theorem dotkey_lit_misses : replaceVariablesSpec "<<a>>" [] [dotKV] = "<<a>>" := by
  simp only [replaceVariablesSpec, buildVariableMap, mapSet, getEffectiveValue, dotKV, mkKV]
  simp [tokChars, litReplaceAll, List.isPrefixOf]

/-- A regex-neutral key whose effective value is the JS replacement
pattern `$&` (the matched text under `GetSubstitution`). -/
def dollarKV : KeyValue := mkKV "k" "$&"

/-- With effective value `$&`, the code writes the matched token back:
the text `<<k>>` comes out unchanged. -/
theorem dollar_code_keeps : replaceVariables "<<k>>" [] [dollarKV] = "<<k>>" := by
  simp only [replaceVariables, buildVariableMap, mapSet, getEffectiveValue, dollarKV, mkKV]
  simp [keyPattern, tokChars, toPChar, replaceAll, replaceAllFrom, expandRepl,
    consumePat, pcharMatches]

/-- Literal substitution of the value would write `$&` itself. -/
theorem dollar_lit_writes : replaceVariablesSpec "<<k>>" [] [dollarKV] = "$&" := by
  simp only [replaceVariablesSpec, buildVariableMap, mapSet, getEffectiveValue, dollarKV, mkKV]
  simp [tokChars, litReplaceAll, List.isPrefixOf]

/-! ## Claim C3: the variable substitution contract -/

/-- C3 counterexample: two failures of the literal each-occurrence
reading. With the enabled key `.`, `replaceVariables` turns `<<a>>` into
`V` although `<<a>>` contains no occurrence of the token `<<.>>`; and
with the regex-neutral key `k` whose effective value is `$&`, the JS
replacement-string expansion (`GetSubstitution`) writes the matched token
back, so the output is `<<k>>` where the claim's literal substitution
gives `$&`. -/
theorem c3_counterexample :
    replaceVariables "<<a>>" [] [dotKV] = "V" ∧
    replaceVariablesSpec "<<a>>" [] [dotKV] = "<<a>>" ∧
    replaceVariables "<<k>>" [] [dollarKV] = "<<k>>" ∧
    replaceVariablesSpec "<<k>>" [] [dollarKV] = "$&" ∧
    replaceVariables "<<k>>" [] [dollarKV] ≠ replaceVariablesSpec "<<k>>" [] [dollarKV] :=
  ⟨dotkey_regex_hits, dotkey_lit_misses, dollar_code_keeps, dollar_lit_writes, by
    rw [dollar_code_keeps, dollar_lit_writes]; decide⟩

/-- C3 (amended): provided every enabled key is regex-neutral and every
enabled effective value contains no `$` (so the JS replacement-string
expansion leaves it verbatim), `replaceVariables` substitutes exactly the
literal occurrences of `<<key>>` (it coincides with the
literal-substitution model built from the spec's words); the effective
value follows the currentValue / value / initialValue / empty precedence;
and a key enabled in both scopes resolves to the environment variable's
effective value in the substitution map. -/
theorem c3_replace_variables_amended (text : String) (cv ev : List KeyValue)
    (c e : KeyValue)
    (hneutral : ∀ v ∈ cv ++ ev, v.enabled = true →
      regexNeutral v.key ∧ '$' ∉ (getEffectiveValue v).data) :
    replaceVariables text cv ev = replaceVariablesSpec text cv ev ∧
    (∀ v : KeyValue, getEffectiveValue v = effectiveValueSpec v) ∧
    (c.enabled = true → e.enabled = true → c.key = e.key →
      buildVariableMap [c] [e] = [(c.key, getEffectiveValue e)]) := by
  refine ⟨replaceVariables_eq_spec_of_neutral text cv ev hneutral, ?_, ?_⟩
  · intro v
    unfold getEffectiveValue effectiveValueSpec
    cases hcv : v.currentValue with
    | none =>
      by_cases hv : v.value = "" <;> by_cases hi : v.initialValue.getD "" = "" <;>
        simp [hv, hi]
    | some cval =>
      by_cases hc2 : cval = ""
      · subst hc2
        by_cases hv : v.value = "" <;> by_cases hi : v.initialValue.getD "" = "" <;>
          simp [hv, hi]
      · simp [hc2]
  · intro hc he hkey
    unfold buildVariableMap
    simp only [List.foldl_cons, List.foldl_nil, if_pos hc, if_pos he]
    simp [mapSet, hkey]

/-- C3 witness: the amended theorem applied at a concrete duplicate key
enabled in both scopes — the code output equals the literal model, and
the map carries the environment variable's effective value. -/
theorem c3_witness :
    replaceVariables "<<k>>" [mkKV "k" "c"] [mkKV "k" "e"]
      = replaceVariablesSpec "<<k>>" [mkKV "k" "c"] [mkKV "k" "e"] ∧
    buildVariableMap [mkKV "k" "c"] [mkKV "k" "e"]
      = [((mkKV "k" "c").key, getEffectiveValue (mkKV "k" "e"))] := by
  constructor
  · exact (c3_replace_variables_amended "<<k>>" [mkKV "k" "c"] [mkKV "k" "e"]
      (mkKV "k" "c") (mkKV "k" "e") (by decide)).1
  · exact (c3_replace_variables_amended "<<k>>" [mkKV "k" "c"] [mkKV "k" "e"]
      (mkKV "k" "c") (mkKV "k" "e") (by decide)).2.2 rfl rfl rfl

/-! ## Claim C10: unescaped regex interpolation -/

/-- C10 counterexample: the claim's first half — for regex-neutral
enabled keys the substitution replaces exactly the literal occurrences of
`<<key>>` — fails when an effective value contains a `$`-sequence: with
the regex-neutral enabled key `k` and value `$&`, the code writes the
matched token back (`<<k>>`), not the literal value `$&`. -/
theorem c10_counterexample :
    dollarKV.key = "k" ∧ regexNeutral dollarKV.key ∧ dollarKV.enabled = true ∧
    replaceVariables "<<k>>" [] [dollarKV] = "<<k>>" ∧
    replaceVariablesSpec "<<k>>" [] [dollarKV] = "$&" ∧
    replaceVariables "<<k>>" [] [dollarKV] ≠ replaceVariablesSpec "<<k>>" [] [dollarKV] :=
  ⟨rfl, by decide, rfl, dollar_code_keeps, dollar_lit_writes, by
    rw [dollar_code_keeps, dollar_lit_writes]; decide⟩

/-- C10 (amended): `replaceVariables` interpolates keys into an unescaped
regex and passes the value as a JS replacement string — for variable sets
whose enabled keys are all regex-neutral and whose enabled effective
values contain no `$`, the substitution is exactly the literal token
replacement, but for the variable with key `.` (a regex metacharacter)
the substitution is not a literal-token replacement: it rewrites `<<a>>`,
which contains no occurrence of `<<.>>`. -/
theorem c10_unescaped_regex_keys :
    (∀ (text : String) (cv ev : List KeyValue),
      (∀ v ∈ cv ++ ev, v.enabled = true →
        regexNeutral v.key ∧ '$' ∉ (getEffectiveValue v).data) →
      replaceVariables text cv ev = replaceVariablesSpec text cv ev) ∧
    dotKV.key = "." ∧ dotKV.enabled = true ∧ '.' ∈ regexMetaChars ∧
    replaceVariables "<<a>>" [] [dotKV] = "V" ∧
    replaceVariablesSpec "<<a>>" [] [dotKV] = "<<a>>" :=
  ⟨fun text cv ev h => replaceVariables_eq_spec_of_neutral text cv ev h,
    rfl, rfl, by decide, dotkey_regex_hits, dotkey_lit_misses⟩

/-- C10 witness: the universal part applied at a concrete regex-neutral,
`$`-free variable set. -/
theorem c10_witness :
    replaceVariables "x<<k>>y" [mkKV "k" "v"] []
      = replaceVariablesSpec "x<<k>>y" [mkKV "k" "v"] [] :=
  c10_unescaped_regex_keys.1 "x<<k>>y" [mkKV "k" "v"] [] (by decide)

/-! ## Token-survival lemmas (claim C9) -/

theorem key_tail_not_prefix (b : List Char) : ∀ (k k' : List Char), k ≠ k' →
    (∀ c ∈ k, c ≠ '<' ∧ c ≠ '>') → (∀ c ∈ k', c ≠ '<' ∧ c ≠ '>') →
    (k ++ ['>', '>']).isPrefixOf ((k' ++ ['>', '>']) ++ b) = false := by
  intro k
  induction k with
  | nil =>
    intro k' hne hk hk'
    cases k' with
    | nil => exact absurd rfl hne
    | cons c' k'' =>
      have hc' : c' ≠ '>' := (hk' c' (List.mem_cons_self c' k'')).2
      simp only [List.nil_append, List.cons_append, List.isPrefixOf_cons₂]
      rw [beq_false_of_ne (fun h => hc' h.symm)]
      rfl
  | cons c k₂ ih =>
    intro k' hne hk hk'
    have hc : c ≠ '>' := (hk c (List.mem_cons_self c k₂)).2
    cases k' with
    | nil =>
      simp only [List.cons_append, List.nil_append, List.isPrefixOf_cons₂]
      rw [beq_false_of_ne hc]
      rfl
    | cons c' k₂' =>
      by_cases hcc : c = c'
      · subst hcc
        simp only [List.cons_append, List.isPrefixOf_cons₂, beq_self_eq_true, Bool.true_and]
        exact ih k₂' (fun h => hne (by rw [h]))
          (fun x hx => hk x (List.mem_cons_of_mem c hx))
          (fun x hx => hk' x (List.mem_cons_of_mem c hx))
      · simp only [List.cons_append, List.isPrefixOf_cons₂]
        rw [beq_false_of_ne hcc]
        rfl

/-- A token `<<k>>` is never a prefix of a different token `<<k'>>`
followed by anything, when both keys avoid angle brackets. -/
theorem tok_not_prefix_of_ne (k k' : List Char) (hne : k ≠ k')
    (hk : ∀ c ∈ k, c ≠ '<' ∧ c ≠ '>') (hk' : ∀ c ∈ k', c ≠ '<' ∧ c ≠ '>')
    (b : List Char) :
    (tokChars k).isPrefixOf (tokChars k' ++ b) = false := by
  unfold tokChars
  simp only [List.cons_append, List.isPrefixOf_cons₂, beq_self_eq_true, Bool.true_and]
  exact key_tail_not_prefix b k k' hne hk hk'

/-- A token `<<k>>` never starts strictly inside a token `<<k'>>` (with
anything appended), when `k'` avoids angle brackets. -/
theorem tok_not_prefix_inside (k k' : List Char)
    (hk' : ∀ c ∈ k', c ≠ '<' ∧ c ≠ '>') (b : List Char) :
    ∀ i, 0 < i → i < (tokChars k').length →
      (tokChars k).isPrefixOf ((tokChars k').drop i ++ b) = false := by
  intro i h0 hlen
  match i, h0 with
  | 1, _ =>
    have hdrop1 : (tokChars k').drop 1 = '<' :: (k' ++ ['>', '>']) := by simp [tokChars]
    rw [hdrop1]
    cases k' with
    | nil =>
      simp only [List.nil_append, List.drop_succ_cons, List.drop_zero, tokChars,
        List.cons_append, List.isPrefixOf_cons₂, beq_self_eq_true, Bool.true_and]
      rw [beq_false_of_ne (by decide : ('<' : Char) ≠ '>')]
      rfl
    | cons c' k'' =>
      have hc' : c' ≠ '<' := (hk' c' (List.mem_cons_self c' k'')).1
      simp only [List.drop_succ_cons, List.drop_zero, tokChars, List.cons_append,
        List.isPrefixOf_cons₂, beq_self_eq_true, Bool.true_and]
      rw [beq_false_of_ne (fun h => hc' h.symm)]
      rfl
  | (i + 2), _ =>
    have hi : i < (k' ++ ['>', '>']).length := by
      simp only [tokChars, List.length_cons, List.length_append] at hlen ⊢
      simp only [List.length_cons, List.length_nil]
      simp at hlen
      omega
    have hdrop : (tokChars k').drop (i + 2) = (k' ++ ['>', '>']).drop i := by
      simp [tokChars]
    rw [hdrop, List.drop_eq_getElem_cons hi]
    have hx : (k' ++ ['>', '>'])[i] ≠ '<' := by
      have hmem := List.getElem_mem hi
      rw [List.mem_append] at hmem
      rcases hmem with hmem | hmem
      · exact (hk' _ hmem).1
      · simp only [List.mem_cons, List.mem_singleton] at hmem
        rcases hmem with hmem | hmem | hmem
        · rw [hmem]; decide
        · rw [hmem]; decide
        · simp at hmem
    show ('<' :: '<' :: (k ++ ['>', '>'])).isPrefixOf
      (((k' ++ ['>', '>'])[i] :: (k' ++ ['>', '>']).drop (i + 1)) ++ b) = false
    simp only [List.cons_append, List.isPrefixOf_cons₂]
    rw [beq_false_of_ne (fun h => hx h.symm)]
    rfl

theorem countOcc_append_of_no_start (tok : List Char) :
    ∀ (xs b : List Char),
      (∀ i < xs.length, tok.isPrefixOf (xs.drop i ++ b) = false) →
      countOcc tok (xs ++ b) = countOcc tok b := by
  intro xs
  induction xs with
  | nil => intro b _; rfl
  | cons x xs ih =>
    intro b h
    have h0 := h 0 (by simp)
    simp only [List.drop_zero] at h0
    rw [List.cons_append, countOcc, ← List.cons_append, h0]
    rw [ih b (fun i hi => by
      have := h (i + 1) (by simp only [List.length_cons]; omega)
      simpa using this)]
    simp

theorem countOcc_append_head (tok : List Char) :
    ∀ (xs b : List Char), xs ≠ [] →
      (∀ i, 0 < i → i < xs.length → tok.isPrefixOf (xs.drop i ++ b) = false) →
      countOcc tok (xs ++ b)
        = (if tok.isPrefixOf (xs ++ b) then 1 else 0) + countOcc tok b := by
  intro xs
  induction xs with
  | nil => intro b h; exact absurd rfl h
  | cons x xs ih =>
    intro b _ h
    rw [List.cons_append, countOcc, ← List.cons_append]
    by_cases hxs : xs = []
    · subst hxs
      simp only [List.nil_append]
    · rw [ih b hxs (fun i h0 hi => by
        have := h (i + 1) (by omega) (by simp only [List.length_cons]; omega)
        simpa using this)]
      have hxl : 1 ≤ xs.length := by
        cases xs with
        | nil => exact absurd rfl hxs
        | cons a as => simp
      have h1 := h 1 (by omega) (by simp only [List.length_cons]; omega)
      simp only [List.drop_succ_cons, List.drop_zero] at h1
      rw [h1]
      simp

theorem countOcc_le_append (tok : List Char) :
    ∀ (a b : List Char), countOcc tok b ≤ countOcc tok (a ++ b) := by
  intro a
  induction a with
  | nil => intro b; simp
  | cons x a ih =>
    intro b
    rw [List.cons_append, countOcc]
    have := ih b
    omega

theorem replaceAllFrom_skip_region (pat : List PChar) (repl : List Char) :
    ∀ (j : Nat) (t : List Char), j ≤ t.length →
      (∀ i < j, consumePat pat (t.drop i) = none) →
      ∀ (orig : List Char) (pos : Nat),
      replaceAllFrom pat repl orig pos t
        = t.take j ++ replaceAllFrom pat repl orig (pos + j) (t.drop j) := by
  intro j
  induction j with
  | zero => intro t _ _ orig pos; simp
  | succ j ih =>
    intro t hl h orig pos
    cases t with
    | nil => simp at hl
    | cons c cs =>
      have h0 := h 0 (by omega)
      simp only [List.drop_zero] at h0
      rw [replaceAllFrom]
      split
      · rename_i rest heq
        rw [h0] at heq
        cases heq
      · simp only [List.take_succ_cons, List.drop_succ_cons, List.cons_append]
        congr 1
        have harith : pos + (j + 1) = pos + 1 + j := by omega
        rw [harith]
        exact ih cs (by simp only [List.length_cons] at hl; omega)
          (fun i hi => by
            have := h (i + 1) (by omega)
            simpa using this) orig (pos + 1)

/-- Replacing a different token `<<k'>>` never destroys an occurrence of
the token `<<k>>` (both keys angle-bracket free). -/
theorem countOcc_replaceAll_le (k k' : List Char) (repl : List Char)
    (hne : k ≠ k')
    (hk : ∀ c ∈ k, c ≠ '<' ∧ c ≠ '>') (hk' : ∀ c ∈ k', c ≠ '<' ∧ c ≠ '>') :
    ∀ t, countOcc (tokChars k) t
      ≤ countOcc (tokChars k) (replaceAll ((tokChars k').map PChar.lit) repl t) := by
  have hnostart : ∀ (b : List Char) i, i < (tokChars k').length →
      (tokChars k).isPrefixOf ((tokChars k').drop i ++ b) = false := by
    intro b i hi
    cases Nat.eq_zero_or_pos i with
    | inl h0 => subst h0; simpa using tok_not_prefix_of_ne k k' hne hk hk' b
    | inr hpos => exact tok_not_prefix_inside k k' hk' b i hpos hi
  have hnoself : ∀ (b : List Char) i, 0 < i → i < (tokChars k).length →
      (tokChars k).isPrefixOf ((tokChars k).drop i ++ b) = false :=
    fun b i hpos hi => tok_not_prefix_inside k k hk b i hpos hi
  have main : ∀ (len : Nat) (t : List Char), t.length ≤ len →
      ∀ (orig : List Char) (pos : Nat),
      countOcc (tokChars k) t
        ≤ countOcc (tokChars k)
            (replaceAllFrom ((tokChars k').map PChar.lit) repl orig pos t) := by
    intro len
    induction len with
    | zero =>
      intro t hl orig pos
      cases t with
      | nil => rw [replaceAllFrom]
      | cons c cs => simp at hl
    | succ len ih =>
      intro t hl orig pos
      cases t with
      | nil => rw [replaceAllFrom]
      | cons c cs =>
        by_cases hp : (tokChars k').isPrefixOf (c :: cs)
        · rw [replaceAllFrom]
          split
          · rename_i rest heq
            rw [consumePat_lit, if_pos hp] at heq
            injection heq with heq
            rw [dif_neg (by simp [tokChars])]
            have hr : tokChars k' ++ rest = c :: cs := by
              rw [← heq]
              conv_rhs => rw [← List.take_append_drop (tokChars k').length (c :: cs)]
              congr 1
              obtain ⟨r1, hr1⟩ := List.isPrefixOf_iff_prefix.1 hp
              rw [← hr1, List.take_left]
            have hcount : countOcc (tokChars k) (c :: cs) = countOcc (tokChars k) rest := by
              rw [← hr]
              exact countOcc_append_of_no_start (tokChars k) (tokChars k') rest
                (fun i hi => hnostart rest i hi)
            rw [hcount]
            calc countOcc (tokChars k) rest
                ≤ countOcc (tokChars k)
                    (replaceAllFrom ((tokChars k').map PChar.lit) repl orig
                      (pos + ((tokChars k').map PChar.lit).length) rest) := by
                  apply ih
                  have hlen2 : (c :: cs).length = (tokChars k').length + rest.length := by
                    rw [← hr, List.length_append]
                  have htl : 1 ≤ (tokChars k').length := by simp [tokChars]
                  simp only [List.length_cons] at hl hlen2
                  omega
              _ ≤ countOcc (tokChars k)
                    (expandRepl ((c :: cs).take ((tokChars k').map PChar.lit).length)
                        (orig.take pos) rest repl
                      ++ replaceAllFrom ((tokChars k').map PChar.lit) repl orig
                          (pos + ((tokChars k').map PChar.lit).length) rest) :=
                  countOcc_le_append (tokChars k) _ _
          · rename_i heq
            rw [consumePat_lit, if_pos hp] at heq
            cases heq
        · by_cases htok : (tokChars k).isPrefixOf (c :: cs)
          · obtain ⟨b, hb⟩ := List.isPrefixOf_iff_prefix.1 htok
            have hlen' : (tokChars k).length ≤ (c :: cs).length := by
              rw [← hb, List.length_append]; omega
            have hnomatch : ∀ i < (tokChars k).length,
                consumePat ((tokChars k').map PChar.lit) ((c :: cs).drop i) = none := by
              intro i hi
              have hfalse : (tokChars k').isPrefixOf ((c :: cs).drop i) = false := by
                rw [← hb, List.drop_append_of_le_length (by omega)]
                cases Nat.eq_zero_or_pos i with
                | inl h0 =>
                  subst h0
                  simp only [List.drop_zero]
                  exact tok_not_prefix_of_ne k' k (fun h => hne h.symm) hk' hk b
                | inr hpos => exact tok_not_prefix_inside k' k hk b i hpos hi
              rw [consumePat_lit, hfalse]
              simp
            have hskip := replaceAllFrom_skip_region ((tokChars k').map PChar.lit) repl
              (tokChars k).length (c :: cs) hlen' hnomatch orig pos
            rw [hskip, ← hb, List.take_left, List.drop_left]
            rw [countOcc_append_head (tokChars k) (tokChars k) b
              (by simp [tokChars]) (fun i h0 hi => hnoself b i h0 hi)]
            rw [countOcc_append_head (tokChars k) (tokChars k) _
              (by simp [tokChars]) (fun i h0 hi => hnoself _ i h0 hi)]
            rw [List.isPrefixOf_iff_prefix.2 (List.prefix_append _ b),
              List.isPrefixOf_iff_prefix.2 (List.prefix_append _ _)]
            simp only [if_true]
            have hrec : countOcc (tokChars k) b
                ≤ countOcc (tokChars k)
                    (replaceAllFrom ((tokChars k').map PChar.lit) repl orig
                      (pos + (tokChars k).length) b) := by
              apply ih
              have hlen2 : (c :: cs).length = (tokChars k).length + b.length := by
                rw [← hb, List.length_append]
              have htl : 1 ≤ (tokChars k).length := by simp [tokChars]
              simp only [List.length_cons] at hl hlen2
              omega
            omega
          · rw [replaceAllFrom]
            split
            · rename_i rest heq
              rw [consumePat_lit, if_neg hp] at heq
              cases heq
            · rw [countOcc, countOcc]
              rw [if_neg htok]
              have hrec := ih cs (by simp only [List.length_cons] at hl; omega) orig (pos + 1)
              split <;> omega
  intro t
  rw [replaceAll]
  exact main t.length t (Nat.le_refl _) t 0

theorem countOcc_foldl_le (k : String) (hkAngle : angleFreeS k) :
    ∀ (m : List (String × String)),
      (∀ e ∈ m, e.1 ≠ k ∧ angleFreeS e.1 ∧ regexNeutral e.1) →
      ∀ t, countOcc (tokChars k.data) t
        ≤ countOcc (tokChars k.data)
            (m.foldl (fun acc e => replaceAll (keyPattern e.1) e.2.data acc) t) := by
  intro m
  induction m with
  | nil => intro _ t; simp
  | cons e m ih =>
    intro h t
    obtain ⟨hne, hangle, hneutral⟩ := h e (List.mem_cons_self e m)
    simp only [List.foldl_cons]
    have step : countOcc (tokChars k.data) t
        ≤ countOcc (tokChars k.data) (replaceAll (keyPattern e.1) e.2.data t) := by
      rw [keyPattern_eq_lit e.1
        (fun c hc hdot => (hneutral c hc) (by rw [hdot]; simp [regexMetaChars]))]
      exact countOcc_replaceAll_le k.data e.1.data e.2.data
        (fun hd => hne (String.ext hd.symm)) hkAngle hangle t
    exact le_trans step (ih (fun x hx => h x (List.mem_cons_of_mem e hx)) _)

/-- The history resolver never substitutes away an occurrence of `<<k>>`
when no enabled variable in its map has key `k` and all enabled keys are
well-behaved. -/
theorem countOcc_replaceVariables_le (k : String) (vars : List KeyValue) (t : String)
    (hkAngle : angleFreeS k)
    (hvars : ∀ v ∈ vars, v.enabled = true →
      v.key ≠ k ∧ angleFreeS v.key ∧ regexNeutral v.key) :
    countOcc (tokChars k.data) t.data
      ≤ countOcc (tokChars k.data) (replaceVariables t vars []).data := by
  unfold replaceVariables
  dsimp only
  apply countOcc_foldl_le k hkAngle
  intro e he
  obtain ⟨v, hv1, hv2, hv3⟩ := buildVariableMap_keys vars [] e he
  rw [List.append_nil] at hv1
  obtain ⟨h1, h2, h3⟩ := hvars v hv1 hv2
  rw [← hv3]
  exact ⟨h1, h2, h3⟩

/-! ## Claim C9: secret variables and history resolution -/

/-- A request whose URL is exactly the secret token. -/
def secretUrlReq : ApiRequest := { baseReq with url := "<<k>>" }

/-- C9 counterexample: the variable `k` is secret, yet
`resolveRequestVariables` substitutes `<<k>>` in the URL because a
non-secret environment variable with the same key exists — the token is
not left literally in the output. -/
theorem c9_counterexample :
    (secretKV "k" "SECRET").isSecret = true ∧
    (resolveRequestVariables secretUrlReq [secretKV "k" "SECRET"] [mkKV "k" "v"]).url
      = "v" := by
  constructor
  · rfl
  · simp only [resolveRequestVariables, secretUrlReq, baseReq, secretKV, mkKV]
    simp [replaceVariables, buildVariableMap, mapSet, getEffectiveValue, List.filter,
      keyPattern, tokChars, toPChar, replaceAll, replaceAllFrom, expandRepl,
      consumePat, pcharMatches]

/-- C9 (amended): for a secret variable with key `k` — provided no
enabled non-secret variable in either scope shares the key `k`, enabled
non-secret keys are regex-neutral and angle-bracket free, and `k` itself
is angle-bracket free — history resolution never substitutes away an
occurrence of `<<k>>`: the resolver is occurrence-preserving on every
text, and each processed output field (URL, header values, param values,
raw body, form-data/url-encoded entries, bearer/basic/api-key auth
fields) is exactly that resolver applied to the corresponding input
field. -/
theorem c9_secret_survival_amended (request : ApiRequest)
    (cv ev : List KeyValue) (s : KeyValue)
    (hs : s ∈ cv ++ ev) (hsec : s.isSecret = true)
    (hkAngle : angleFreeS s.key)
    (hvars : ∀ v ∈ cv ++ ev, v.isSecret = false → v.enabled = true →
      v.key ≠ s.key ∧ angleFreeS v.key ∧ regexNeutral v.key) :
    (∀ text : String,
      countOcc (tokChars s.key.data) text.data
        ≤ countOcc (tokChars s.key.data)
            (replaceVariables text ((cv ++ ev).filter (fun v => !v.isSecret)) []).data) ∧
    (resolveRequestVariables request cv ev).url
      = replaceVariables request.url ((cv ++ ev).filter (fun v => !v.isSecret)) [] ∧
    (resolveRequestVariables request cv ev).headers
      = request.headers.map (fun h => { h with
          value := replaceVariables h.value ((cv ++ ev).filter (fun v => !v.isSecret)) [] }) ∧
    (resolveRequestVariables request cv ev).params
      = request.params.map (fun p => { p with
          value := replaceVariables p.value ((cv ++ ev).filter (fun v => !v.isSecret)) [] }) ∧
    (resolveRequestVariables request cv ev).body.formData
      = request.body.formData.map (fun l => l.map (fun f => { f with
          value := replaceVariables f.value ((cv ++ ev).filter (fun v => !v.isSecret)) [] })) ∧
    (resolveRequestVariables request cv ev).body.urlencoded
      = request.body.urlencoded.map (fun l => l.map (fun u => { u with
          value := replaceVariables u.value ((cv ++ ev).filter (fun v => !v.isSecret)) [] })) ∧
    (resolveRequestVariables request cv ev).auth.bearer
      = request.auth.bearer.map (fun b =>
          { token := replaceVariables b.token ((cv ++ ev).filter (fun v => !v.isSecret)) [] }) ∧
    (resolveRequestVariables request cv ev).auth.basic
      = request.auth.basic.map (fun b =>
          { username := replaceVariables b.username ((cv ++ ev).filter (fun v => !v.isSecret)) []
            password := replaceVariables b.password ((cv ++ ev).filter (fun v => !v.isSecret)) [] }) ∧
    (resolveRequestVariables request cv ev).auth.apiKey
      = request.auth.apiKey.map (fun a => { a with
          key := replaceVariables a.key ((cv ++ ev).filter (fun v => !v.isSecret)) []
          value := replaceVariables a.value ((cv ++ ev).filter (fun v => !v.isSecret)) [] }) ∧
    countOcc (tokChars s.key.data) request.url.data
      ≤ countOcc (tokChars s.key.data) (resolveRequestVariables request cv ev).url.data := by
  have hsurv : ∀ text : String,
      countOcc (tokChars s.key.data) text.data
        ≤ countOcc (tokChars s.key.data)
            (replaceVariables text ((cv ++ ev).filter (fun v => !v.isSecret)) []).data := by
    intro text
    apply countOcc_replaceVariables_le s.key _ text hkAngle
    intro v hv henb
    rw [List.mem_filter] at hv
    obtain ⟨hv1, hv2⟩ := hv
    exact hvars v hv1 (by simpa using hv2) henb
  exact ⟨hsurv, rfl, rfl, rfl, rfl, rfl, rfl, rfl, rfl, hsurv request.url⟩

/-- A request whose URL carries the secret token `<<sec>>`. -/
def secUrlReq : ApiRequest := { baseReq with url := "a<<sec>>b" }

/-- C9 witness: the amended theorem applied at a concrete secret variable
and a disjoint non-secret variable — the occurrence of `<<sec>>` in the
URL survives history resolution. -/
theorem c9_witness :
    countOcc (tokChars "sec".data) "a<<sec>>b".data
      ≤ countOcc (tokChars "sec".data) (resolveRequestVariables secUrlReq
          [secretKV "sec" "S"] [mkKV "other" "v"]).url.data := by
  have h := (c9_secret_survival_amended secUrlReq [secretKV "sec" "S"] [mkKV "other" "v"]
    (secretKV "sec" "S") (by simp) rfl (by decide) (by decide)).2.2.2.2.2.2.2.2.2
  simpa [secUrlReq, baseReq] using h

end Fetchy
